import Mathlib

/-!
Verification of the TileDB-BioImaging ingestion/export core (`tiledb/bioimg`),
as a shallow embedding of `converters/base.py` (`to_tiledb`, `from_tiledb`,
`_scale`, `_get_schema`) together with the collaborator interfaces it consumes.
Components whose code is not part of the sources (`converters/axes.py`,
`converters/tiles.py`, `converters/scale.py`, and the `TileDBOpenSlide`
accessors used by `from_tiledb`) are modelled from the specification; each such
definition carries a doc comment saying so.

Conventions:
- cell values are `Nat` (the attribute dtype is tracked only as an opaque code);
- an n-dimensional array is a total function `List Nat → Nat` plus a shape;
- the storage engine's object store is an association list keyed by level
  number: the array for level `k` lives at path `l_k.tdb` under the (fixed)
  output path, so the level number determines the URI.
-/

namespace BioImg

/-! ## Numpy integer semantics used by `_get_schema` -/

/-- Numpy scalar dtypes that `np.min_scalar_type` can return for an
int64-representable integer. -/
inductive Dtype
  | u8 | u16 | u32 | u64
  | i8 | i16 | i32 | i64
deriving DecidableEq, Repr

/-- Two's-complement wrap-around into the int64 range, as performed by numpy
integer arithmetic on an int64 array (numpy integer arithmetic is modular;
no error is raised on overflow). -/
def wrap64 (z : Int) : Int := (z + 2 ^ 63) % 2 ^ 64 - 2 ^ 63

/-- The value of `np.prod` on a tuple of Python ints, each assumed to be
int64-representable (numpy converts the tuple to an int64 array and reduces
with wrapping int64 multiplication, left to right). -/
def np_prod_int64 (shape : List Nat) : Int :=
  shape.foldl (fun acc (x : Nat) => wrap64 (acc * (x : Int))) 1

/-- Plain natural-number product of a shape, folded like `np.prod`. -/
def nat_prod (shape : List Nat) : Nat := shape.foldl (· * ·) 1

/-- The value of `np.min_scalar_type` on an int64-representable integer: the
smallest-size scalar kind that can hold the value losslessly (unsigned for
non-negative values, signed for negative ones). -/
def np_min_scalar_type (v : Int) : Dtype :=
  if 0 ≤ v then
    if v ≤ 255 then .u8
    else if v ≤ 65535 then .u16
    else if v ≤ 4294967295 then .u32
    else .u64
  else
    if -128 ≤ v then .i8
    else if -32768 ≤ v then .i16
    else if -2147483648 ≤ v then .i32
    else .i64

/-- The smallest unsigned width among 8/16/32/64 bits whose range covers the
value `n` itself, total with `u64` as the fallback (callers establish
`n < 2 ^ 64`). -/
def smallest_uint_covering (n : Nat) : Dtype :=
  if n < 256 then .u8
  else if n < 65536 then .u16
  else if n < 4294967296 then .u32
  else .u64

/-- The index-dtype rule exactly as the claim words it: the smallest unsigned
width whose range covers `total_cell_count - 1`. -/
def spec_index_dtype_claim (total_cell_count : Nat) : Dtype :=
  smallest_uint_covering (total_cell_count - 1)

/-! ## Schema generation (`_get_schema`) -/

/-- One dimension of a generated TileDB array schema: name, extent (the domain
is `(0, size - 1)`), and tile size. -/
structure SchemaDim where
  name : Char
  size : Nat
  tile : Nat
deriving DecidableEq, Repr

/-- A generated dense array schema: its dimensions, the shared dimension index
dtype, and the (opaque) attribute dtype code. -/
structure Schema where
  dims : List SchemaDim
  dim_dtype : Dtype
  attr_dtype : Nat
deriving DecidableEq, Repr

/-- Python `min(dim_size, max_tiles[dim_name])` where the bound may be the
float `np.inf` (modelled as `none`): the infinite bound yields the extent. -/
def min_tile (size : Nat) : Option Nat → Nat
  | none => size
  | some t => min size t

/-- The `_DEFAULT_TILES` table: `T` and `Z` map to 1, `C` to `np.inf` (encoded
`none`), `Y` and `X` to 1024. The source dict raises `KeyError` on any other
label (the `Axes` invariant restricts labels to TCZYX); the model totalizes
with 1 for such labels. -/
def default_tiles (c : Char) : Option Nat :=
  if c = 'C' then none
  else if c = 'Y' ∨ c = 'X' then some 1024
  else some 1

/-- `max_tiles = cls._DEFAULT_TILES.copy(); max_tiles.update(tiles)` -/
def with_defaults (tiles : Char → Option Nat) (c : Char) : Option Nat :=
  match tiles c with
  | some t => some t
  | none => default_tiles c

/-- The effective per-dimension tile bounds of `to_tiledb`: user-requested
tiles over the defaults, with the `X` bound multiplied by the pixel depth
(`max_tiles["X"] *= pixel_depth`; `np.inf` times a positive int stays
`np.inf`). -/
def mk_max_tiles (tiles : Char → Option Nat) (pixel_depth : Nat) (c : Char) :
    Option Nat :=
  if c = 'X' then (with_defaults tiles c).map (· * pixel_depth)
  else with_defaults tiles c

/-- Shallow embedding of `_get_schema`: the dimension index dtype is
`np.min_scalar_type(np.prod(dim_shape))`, and each dimension's tile is
`min(dim_size, max_tiles[dim_name])`. -/
def _get_schema (dim_names : List Char) (dim_shape : List Nat)
    (max_tiles : Char → Option Nat) (attr_dtype : Nat) : Schema :=
  { dims := (dim_names.zip dim_shape).map
      (fun p => { name := p.1, size := p.2, tile := min_tile p.2 (max_tiles p.1) })
    dim_dtype := np_min_scalar_type (np_prod_int64 dim_shape)
    attr_dtype := attr_dtype }

/-! Arithmetic facts about the dtype computation. -/

theorem wrap64_of_small {z : Int} (h0 : 0 ≤ z) (h1 : z < 2 ^ 63) :
    wrap64 z = z := by
  unfold wrap64
  rw [Int.emod_eq_of_lt (by omega) (by omega)]
  omega

theorem foldl_mul_eq : ∀ (l : List Nat) (a : Nat),
    List.foldl (· * ·) a l = a * nat_prod l := by
  intro l
  induction l with
  | nil => intro a; simp [nat_prod]
  | cons y ys ih =>
    intro a
    have hys : nat_prod (y :: ys) = y * nat_prod ys := by
      show List.foldl (· * ·) (1 * y) ys = y * nat_prod ys
      rw [ih (1 * y)]
      ring
    show List.foldl (· * ·) (a * y) ys = a * nat_prod (y :: ys)
    rw [ih (a * y), hys]
    ring

theorem nat_prod_cons (x : Nat) (l : List Nat) :
    nat_prod (x :: l) = x * nat_prod l := by
  show List.foldl (· * ·) (1 * x) l = x * nat_prod l
  rw [foldl_mul_eq l (1 * x)]
  ring

theorem nat_prod_pos {l : List Nat} (h : ∀ x ∈ l, 0 < x) : 0 < nat_prod l := by
  induction l with
  | nil => simp [nat_prod]
  | cons x xs ih =>
    rw [nat_prod_cons]
    exact Nat.mul_pos (h x (by simp)) (ih (fun y hy => h y (List.mem_cons_of_mem _ hy)))

set_option maxRecDepth 4000 in
theorem np_prod_int64_eq_nat_prod {shape : List Nat}
    (hpos : ∀ x ∈ shape, 0 < x) (hb : nat_prod shape < 2 ^ 63) :
    np_prod_int64 shape = (nat_prod shape : Int) := by
  have main : ∀ (l : List Nat) (acc : Nat), (∀ x ∈ l, 0 < x) →
      acc * nat_prod l < 2 ^ 63 →
      l.foldl (fun a (x : Nat) => wrap64 (a * (x : Int))) (acc : Int) =
        ((acc * nat_prod l : Nat) : Int) := by
    intro l
    induction l with
    | nil => intro acc _ _; simp [nat_prod]
    | cons x xs ih =>
      intro acc hp hbound
      have hprodxs : 0 < nat_prod xs :=
        nat_prod_pos (fun y hy => hp y (List.mem_cons_of_mem _ hy))
      have hcons : nat_prod (x :: xs) = x * nat_prod xs := nat_prod_cons x xs
      have hsmall : acc * x ≤ acc * nat_prod (x :: xs) := by
        rw [hcons]
        calc acc * x = acc * x * 1 := by ring
          _ ≤ acc * x * nat_prod xs := Nat.mul_le_mul_left _ hprodxs
          _ = acc * (x * nat_prod xs) := by ring
      rw [List.foldl_cons]
      have hax : ((acc : Int) * (x : Int)) = ((acc * x : Nat) : Int) := by push_cast; ring
      have hsmall2 : acc * x < 2 ^ 63 := lt_of_le_of_lt hsmall hbound
      rw [hax, wrap64_of_small (Int.natCast_nonneg _) (by exact_mod_cast hsmall2)]
      rw [ih (acc * x) (fun y hy => hp y (List.mem_cons_of_mem _ hy))
        (by rw [hcons] at hbound; calc acc * x * nat_prod xs = acc * (x * nat_prod xs) := by ring
              _ < 2 ^ 63 := hbound)]
      congr 1
      rw [hcons]
      ring
  have h := main shape 1 hpos (by simpa using hb)
  simpa [np_prod_int64] using h

theorem min_scalar_type_of_uint {n : Nat} (h : n < 2 ^ 63) :
    np_min_scalar_type (n : Int) = smallest_uint_covering n := by
  unfold np_min_scalar_type smallest_uint_covering
  rw [if_pos (Int.natCast_nonneg n)]
  split_ifs <;> first | rfl | omega

/-! ## Arrays, tiles, tile iteration

Modelled from the spec: `converters/tiles.py` (`iter_tiles`, `num_tiles`) is
not among the sources. Per §4.2, tiles enumerate the per-dimension tile-index
grid in row-major order, the final tile along a dimension being clipped to the
domain bound, and `num_tiles` is the product of per-dimension ceilings. A tile
is a tuple of `(start, length)` slices, one per dimension. -/

/-- An index into an n-dimensional array: one coordinate per dimension. -/
abbrev Idx := List Nat

/-- An n-dimensional array of cells, as a total function on indices (the shape
is tracked separately). -/
abbrev Arr := List Nat → Nat

/-- A tile selector: one `(start, length)` slice per dimension. -/
abbrev TileSel := List (Nat × Nat)

/-- A storage domain: one `(extent, tile size)` pair per dimension. -/
abbrev DimSpec := List (Nat × Nat)

/-- Modelled from the spec: number of tiles along one dimension,
`ceil(extent / tile_size)`. -/
def num_tiles_dim (e t : Nat) : Nat := (e + t - 1) / t

/-- Modelled from the spec: the slices covering one dimension; the final slice
is clipped to `extent mod tile_size` when that remainder is non-zero. -/
def slices_of (e t : Nat) : List (Nat × Nat) :=
  (List.range (num_tiles_dim e t)).map (fun k => (k * t, min t (e - k * t)))

/-- Modelled from the spec: `iter_tiles` enumerates all tiles of a domain in
row-major order (last dimension varies fastest). -/
def iter_tiles : DimSpec → List TileSel
  | [] => [[]]
  | d :: ds => (slices_of d.1 d.2).flatMap (fun s => (iter_tiles ds).map (fun r => s :: r))

/-- Modelled from the spec: `num_tiles` is the product of per-dimension tile
counts, computed without materializing the sequence. -/
def num_tiles (ds : DimSpec) : Nat := ds.foldl (fun a d => a * num_tiles_dim d.1 d.2) 1

/-- Membership of a coordinate in a `(start, length)` slice. -/
def in_slice (s : Nat × Nat) (i : Nat) : Bool :=
  decide (s.1 ≤ i) && decide (i < s.1 + s.2)

/-- Membership of an index in a tile (dimension counts must agree). -/
def in_tile : TileSel → Idx → Bool
  | [], [] => true
  | s :: t, i :: is => in_slice s i && in_tile t is
  | _, _ => false

/-- The tile-relative index of an absolute index. -/
def rel_idx : TileSel → Idx → Idx
  | s :: t, i :: is => (i - s.1) :: rel_idx t is
  | _, _ => []

/-- A dense write of one tile region: `a[level_tile] = image`. Cells inside
the tile take the image's value at the tile-relative index; others keep their
previous value. -/
def write_tile (A : Arr) (t : TileSel) (img : Arr) : Arr :=
  fun idx => if in_tile t idx then img (rel_idx t idx) else A idx

/-- Sequential tile-by-tile writes over a list of tiles (the thread pool of
the chunked path writes pairwise-disjoint regions, so the sequential fold has
the same final contents). -/
def write_tiles (img : TileSel → Arr) (ts : List TileSel) (A : Arr) : Arr :=
  ts.foldl (fun B t => write_tile B t (img t)) A

/-- The unique grid tile containing a given in-domain index. -/
def the_tile : DimSpec → Idx → TileSel
  | d :: ds, i :: is =>
      (i / d.2 * d.2, min d.2 (d.1 - i / d.2 * d.2)) :: the_tile ds is
  | _, _ => []

/-- Membership of an index in a domain (dimension counts must agree and every
coordinate is below its extent). -/
def in_domain : DimSpec → Idx → Bool
  | [], [] => true
  | d :: ds, i :: is => decide (i < d.1) && in_domain ds is
  | _, _ => false

/-! ## Axes and axis mapping

Modelled from the spec: `converters/axes.py` (`Axes`, `AxesMapper`,
`transpose_array`) is not among the sources. Per §3/§4.1 an `AxesMapper` is a
pair of axes plus the derived permutation (target position to source
position); `map_shape`/`map_tile` permute per-axis tuples, `map_array`
transposes the array, `inverted` swaps source and target. -/

/-- Modelled from the spec: `Axes.canonical` returns the fixed priority order
T, C, Z, Y, X filtered to the labels actually present. (The source method also
receives the level shape; the spec derives the order from the labels alone.) -/
def canonical_axes (source : List Char) : List Char :=
  ['T', 'C', 'Z', 'Y', 'X'].filter (· ∈ source)

/-- Modelled from the spec: the derived permutation of an `AxesMapper`
(`perm`: target position to source position) and its inverse. -/
structure AxesMapper where
  perm : List Nat
  iperm : List Nat

/-- Build the mapper between two axis orderings: target position `i` draws
from the source position of the target's `i`-th label. -/
def mk_mapper (source target : List Char) : AxesMapper :=
  { perm := target.map (fun c => source.indexOf c)
    iperm := source.map (fun c => target.indexOf c) }

/-- The mapper with source and target swapped. -/
def AxesMapper.inverted (m : AxesMapper) : AxesMapper := ⟨m.iperm, m.perm⟩

/-- Permute a per-axis tuple by a position list (out-of-range positions give
the default; they do not occur for well-formed mappers). -/
def map_index (p : List Nat) (l : List α) (d : α) : List α :=
  p.map (fun j => l.getD j d)

/-- `AxesMapper.map_shape`: permute a shape tuple from source to target
order. -/
def map_shape (m : AxesMapper) (shape : List Nat) : List Nat :=
  map_index m.perm shape 0

/-- `AxesMapper.map_tile`: permute a tuple of per-axis slices from source to
target order. -/
def map_tile (m : AxesMapper) (t : TileSel) : TileSel :=
  map_index m.perm t (0, 0)

/-- `AxesMapper.map_array`: transpose an array to target order; the value at a
target-order index is the source value at the inversely permuted index. -/
def map_array (m : AxesMapper) (A : Arr) : Arr :=
  fun idx => A (map_index m.iperm idx 0)

/-- Per-axis offset of a tile-relative index by the tile's start positions
(the position inside the full source image of a position inside a tile). -/
def add_offsets (t : TileSel) (rel : Idx) : Idx :=
  List.zipWith (fun s r => s.1 + r) t rel

/-! ## The reader collaborator interface (`ImageReader`) -/

/-- The abstract image reader of `converters/base.py`: per-level shape, dtype
(opaque code), pixel data (optionally restricted to a tile of slices, in the
reader's own axis order), per-level metadata and whole-image metadata (opaque
codes). -/
structure ImageReader where
  axes : List Char
  level_count : Nat
  level_shape : Nat → List Nat
  level_dtype : Nat → Nat
  level_image : Nat → Option TileSel → Arr
  level_metadata : Nat → Nat
  group_metadata : Nat

/-- The `(extent, tile)` domain of an array created with a schema, as consumed
by `iter_tiles(a.domain)`. -/
def schema_dim_spec (s : Schema) : DimSpec := s.dims.map (fun d => (d.size, d.tile))

/-- Contents written by the chunked path of `to_tiledb` (lines 260-278): for
every tile of the destination domain, read the inversely mapped source tile,
transpose it, and write it at the tile. Cells are 0 before any write. -/
def chunked_level_data (reader : ImageReader) (level : Nat) (m : AxesMapper)
    (s : Schema) : Arr :=
  write_tiles
    (fun t => map_array m (reader.level_image level (some (map_tile m.inverted t))))
    (iter_tiles (schema_dim_spec s)) (fun _ => 0)

/-- Contents written by the whole-image path of `to_tiledb` (lines 279-281):
one write of the whole transposed image over the full domain. -/
def whole_level_data (reader : ImageReader) (level : Nat) (m : AxesMapper)
    (s : Schema) : Arr :=
  fun idx =>
    if in_domain (schema_dim_spec s) idx then
      map_array m (reader.level_image level none) idx
    else 0

/-! Lemmas about the tile grid: every in-domain index lies in exactly one grid
tile, and a sequence of tile writes therefore assigns it the value of that
tile's image. -/

theorem in_slice_grid_k {e t k i : Nat} (ht : 0 < t)
    (h : in_slice (k * t, min t (e - k * t)) i = true) : k = i / t := by
  simp only [in_slice, Bool.and_eq_true, decide_eq_true_eq] at h
  obtain ⟨h1, h2⟩ := h
  have hmin : min t (e - k * t) ≤ t := Nat.min_le_left _ _
  have hmul : (k + 1) * t = k * t + t := by ring
  have hk1 : k ≤ i / t := (Nat.le_div_iff_mul_le ht).2 h1
  have hk2 : i / t < k + 1 := (Nat.div_lt_iff_lt_mul ht).2 (by omega)
  omega

theorem in_slice_grid_of_div {e t i : Nat} (ht : 0 < t) (he : i < e) :
    in_slice (i / t * t, min t (e - i / t * t)) i = true := by
  have h1 : i / t * t ≤ i := Nat.div_mul_le_self i t
  have h2 : i % t < t := Nat.mod_lt _ ht
  have h3 := Nat.div_add_mod i t
  have h4 : t * (i / t) = i / t * t := by ring
  simp only [in_slice, Bool.and_eq_true, decide_eq_true_eq]
  refine ⟨h1, ?_⟩
  rcases Nat.le_total t (e - i / t * t) with h | h
  · rw [min_eq_left h]; omega
  · rw [min_eq_right h]; omega

theorem extent_le_num_mul {e t : Nat} (ht : 0 < t) :
    e ≤ num_tiles_dim e t * t := by
  unfold num_tiles_dim
  have h1 := Nat.div_add_mod (e + t - 1) t
  have h2 : (e + t - 1) % t < t := Nat.mod_lt _ ht
  have h3 : t * ((e + t - 1) / t) = (e + t - 1) / t * t := by ring
  omega

theorem mem_slices_of {e t : Nat} {s : Nat × Nat} :
    s ∈ slices_of e t ↔
      ∃ k, k < num_tiles_dim e t ∧ s = (k * t, min t (e - k * t)) := by
  simp only [slices_of, List.mem_map, List.mem_range]
  constructor
  · rintro ⟨k, hk, rfl⟩; exact ⟨k, hk, rfl⟩
  · rintro ⟨k, hk, rfl⟩; exact ⟨k, hk, rfl⟩

theorem in_domain_of_in_tile : ∀ {ds : DimSpec} {tl : TileSel} {idx : Idx},
    tl ∈ iter_tiles ds → in_tile tl idx = true → in_domain ds idx = true := by
  intro ds
  induction ds with
  | nil =>
    intro tl idx hm hin
    simp only [iter_tiles, List.mem_singleton] at hm
    subst hm
    cases idx with
    | nil => rfl
    | cons i is => simp [in_tile] at hin
  | cons d ds ih =>
    intro tl idx hm hin
    obtain ⟨e, t⟩ := d
    simp only [iter_tiles, List.mem_flatMap, List.mem_map] at hm
    obtain ⟨s, hs, r, hr, rfl⟩ := hm
    cases idx with
    | nil => simp [in_tile] at hin
    | cons i is =>
      simp only [in_tile, Bool.and_eq_true] at hin
      obtain ⟨hsl, hrest⟩ := hin
      obtain ⟨k, _, rfl⟩ := mem_slices_of.1 hs
      simp only [in_slice, Bool.and_eq_true, decide_eq_true_eq] at hsl
      have hie : i < e := by
        have hmin : min t (e - k * t) ≤ e - k * t := Nat.min_le_right _ _
        omega
      simp only [in_domain, Bool.and_eq_true, decide_eq_true_eq]
      exact ⟨hie, ih hr hrest⟩

theorem the_tile_mem : ∀ {ds : DimSpec} {idx : Idx},
    (∀ d ∈ ds, 0 < d.2) → in_domain ds idx = true →
    the_tile ds idx ∈ iter_tiles ds := by
  intro ds
  induction ds with
  | nil =>
    intro idx _ hdom
    cases idx with
    | nil => simp [the_tile, iter_tiles]
    | cons i is => simp [in_domain] at hdom
  | cons d ds ih =>
    intro idx hpos hdom
    obtain ⟨e, t⟩ := d
    cases idx with
    | nil => simp [in_domain] at hdom
    | cons i is =>
      simp only [in_domain, Bool.and_eq_true, decide_eq_true_eq] at hdom
      obtain ⟨hie, hrest⟩ := hdom
      have ht : 0 < t := hpos (e, t) (by simp)
      simp only [the_tile, iter_tiles, List.mem_flatMap, List.mem_map]
      refine ⟨(i / t * t, min t (e - i / t * t)), ?_, the_tile ds is, ?_, rfl⟩
      · apply mem_slices_of.2
        refine ⟨i / t, ?_, rfl⟩
        exact (Nat.div_lt_iff_lt_mul ht).2 (lt_of_lt_of_le hie (extent_le_num_mul ht))
      · exact ih (fun d hd => hpos d (List.mem_cons_of_mem _ hd)) hrest

theorem in_tile_the_tile : ∀ {ds : DimSpec} {idx : Idx},
    (∀ d ∈ ds, 0 < d.2) → in_domain ds idx = true →
    in_tile (the_tile ds idx) idx = true := by
  intro ds
  induction ds with
  | nil =>
    intro idx _ hdom
    cases idx with
    | nil => rfl
    | cons i is => simp [in_domain] at hdom
  | cons d ds ih =>
    intro idx hpos hdom
    obtain ⟨e, t⟩ := d
    cases idx with
    | nil => simp [in_domain] at hdom
    | cons i is =>
      simp only [in_domain, Bool.and_eq_true, decide_eq_true_eq] at hdom
      obtain ⟨hie, hrest⟩ := hdom
      have ht : 0 < t := hpos (e, t) (by simp)
      simp only [the_tile, in_tile, Bool.and_eq_true]
      exact ⟨in_slice_grid_of_div ht hie,
        ih (fun d hd => hpos d (List.mem_cons_of_mem _ hd)) hrest⟩

theorem in_tile_grid_eq_the_tile : ∀ {ds : DimSpec} {tl : TileSel} {idx : Idx},
    (∀ d ∈ ds, 0 < d.2) → tl ∈ iter_tiles ds → in_tile tl idx = true →
    tl = the_tile ds idx := by
  intro ds
  induction ds with
  | nil =>
    intro tl idx _ hm _
    simp only [iter_tiles, List.mem_singleton] at hm
    subst hm
    cases idx <;> simp [the_tile]
  | cons d ds ih =>
    intro tl idx hpos hm hin
    obtain ⟨e, t⟩ := d
    simp only [iter_tiles, List.mem_flatMap, List.mem_map] at hm
    obtain ⟨s, hs, r, hr, rfl⟩ := hm
    cases idx with
    | nil => simp [in_tile] at hin
    | cons i is =>
      simp only [in_tile, Bool.and_eq_true] at hin
      obtain ⟨hsl, hrest⟩ := hin
      obtain ⟨k, _, rfl⟩ := mem_slices_of.1 hs
      have ht : 0 < t := hpos (e, t) (by simp)
      have hk : k = i / t := in_slice_grid_k ht hsl
      subst hk
      simp only [the_tile, List.cons.injEq]
      exact ⟨trivial, ih (fun d hd => hpos d (List.mem_cons_of_mem _ hd)) hr hrest⟩

theorem mem_last_split {α : Type} [DecidableEq α] {a : α} :
    ∀ {l : List α}, a ∈ l → ∃ l1 l2, l = l1 ++ a :: l2 ∧ a ∉ l2 := by
  intro l
  induction l with
  | nil => intro h; cases h
  | cons x xs ih =>
    intro h
    by_cases hx : a ∈ xs
    · obtain ⟨l1, l2, heq, hno⟩ := ih hx
      exact ⟨x :: l1, l2, by rw [heq]; rfl, hno⟩
    · have hax : a = x := by
        rcases List.mem_cons.1 h with h1 | h1
        · exact h1
        · exact absurd h1 hx
      exact ⟨[], xs, by rw [hax, List.nil_append], hx⟩

theorem write_tiles_of_not_mem {img : TileSel → Arr} {idx : Idx} :
    ∀ {ts : List TileSel} {A : Arr}, (∀ t ∈ ts, in_tile t idx = false) →
    write_tiles img ts A idx = A idx := by
  intro ts
  induction ts with
  | nil => intro A _; rfl
  | cons t ts ih =>
    intro A h
    show write_tiles img ts (write_tile A t (img t)) idx = A idx
    rw [ih (fun u hu => h u (List.mem_cons_of_mem _ hu))]
    simp [write_tile, h t (by simp)]

theorem write_tiles_append (img : TileSel → Arr) (l1 l2 : List TileSel) (A : Arr) :
    write_tiles img (l1 ++ l2) A = write_tiles img l2 (write_tiles img l1 A) :=
  List.foldl_append _ _ _ _

theorem write_tiles_cons (img : TileSel → Arr) (t : TileSel) (ts : List TileSel)
    (A : Arr) : write_tiles img (t :: ts) A = write_tiles img ts (write_tile A t (img t)) :=
  rfl

theorem write_tiles_grid {ds : DimSpec} {idx : Idx} {img : TileSel → Arr} {A : Arr}
    (hpos : ∀ d ∈ ds, 0 < d.2) (hdom : in_domain ds idx = true) :
    write_tiles img (iter_tiles ds) A idx =
      img (the_tile ds idx) (rel_idx (the_tile ds idx) idx) := by
  obtain ⟨l1, l2, heq, hnot⟩ := mem_last_split (the_tile_mem hpos hdom)
  have h2 : ∀ t ∈ l2, in_tile t idx = false := by
    intro t htl
    cases hc : in_tile t idx with
    | false => rfl
    | true =>
      have heqt : t = the_tile ds idx :=
        in_tile_grid_eq_the_tile hpos (by rw [heq]; simp [htl]) hc
      exact absurd (heqt ▸ htl) hnot
  rw [heq, write_tiles_append, write_tiles_cons, write_tiles_of_not_mem h2]
  simp [write_tile, in_tile_the_tile hpos hdom]

theorem tile_offset_getD : ∀ {ds : DimSpec} {idx : Idx} (j : Nat),
    in_domain ds idx = true →
    ((the_tile ds idx).getD j (0, 0)).1 + (rel_idx (the_tile ds idx) idx).getD j 0
      = idx.getD j 0 := by
  intro ds
  induction ds with
  | nil =>
    intro idx j hdom
    cases idx with
    | nil => simp [the_tile, rel_idx, List.getD]
    | cons i is => simp [in_domain] at hdom
  | cons d ds ih =>
    intro idx j hdom
    obtain ⟨e, t⟩ := d
    cases idx with
    | nil => simp [in_domain] at hdom
    | cons i is =>
      simp only [in_domain, Bool.and_eq_true, decide_eq_true_eq] at hdom
      cases j with
      | zero =>
        have hle : i / t * t ≤ i := Nat.div_mul_le_self i t
        simp only [the_tile, rel_idx, List.getD_cons_zero]
        omega
      | succ j =>
        simp only [the_tile, rel_idx, List.getD_cons_succ]
        exact ih j hdom.2

theorem zipWith_map_same {α β γ δ : Type} (f : β → γ → δ) (g : α → β) (h : α → γ) :
    ∀ l : List α, List.zipWith f (l.map g) (l.map h) = l.map (fun x => f (g x) (h x)) := by
  intro l
  induction l with
  | nil => rfl
  | cons x xs ih => simp only [List.map_cons, List.zipWith_cons_cons, ih]

theorem map_pointwise {α β : Type} {f g : α → β} :
    ∀ {l : List α}, (∀ x, f x = g x) → l.map f = l.map g := by
  intro l h
  induction l with
  | nil => rfl
  | cons x xs ih => simp only [List.map_cons, h x, ih]

theorem add_offsets_map_index {p : List Nat} {t : TileSel} {rel idx : Idx}
    (h : ∀ j, (t.getD j (0, 0)).1 + rel.getD j 0 = idx.getD j 0) :
    add_offsets (map_index p t (0, 0)) (map_index p rel 0) = map_index p idx 0 := by
  unfold add_offsets map_index
  rw [zipWith_map_same]
  exact map_pointwise h

/-- Core refinement: for a destination schema all of whose tile sizes are
positive, and a reader whose tiled reads are restrictions of its full read,
the tile-by-tile chunked write path produces exactly the same contents as the
single whole-image write path, on every cell. -/
theorem chunked_eq_whole_level_data (reader : ImageReader) (level : Nat)
    (m : AxesMapper) (s : Schema)
    (hc : ∀ t rel, reader.level_image level (some t) rel
        = reader.level_image level none (add_offsets t rel))
    (ht : ∀ d ∈ s.dims, 0 < d.tile) :
    chunked_level_data reader level m s = whole_level_data reader level m s := by
  funext idx
  have hpos : ∀ d ∈ schema_dim_spec s, 0 < d.2 := by
    intro d hd
    simp only [schema_dim_spec, List.mem_map] at hd
    obtain ⟨d0, hd0, rfl⟩ := hd
    exact ht d0 hd0
  by_cases hdom : in_domain (schema_dim_spec s) idx = true
  · unfold chunked_level_data
    rw [write_tiles_grid hpos hdom]
    show reader.level_image level
        (some (map_index m.iperm (the_tile (schema_dim_spec s) idx) (0, 0)))
        (map_index m.iperm (rel_idx (the_tile (schema_dim_spec s) idx) idx) 0)
      = whole_level_data reader level m s idx
    rw [hc]
    unfold whole_level_data
    rw [if_pos hdom]
    unfold map_array
    congr 1
    exact add_offsets_map_index (fun j => tile_offset_getD j hdom)
  · have hnone : ∀ t ∈ iter_tiles (schema_dim_spec s), in_tile t idx = false := by
      intro t htm
      cases hc2 : in_tile t idx with
      | false => rfl
      | true => exact absurd (in_domain_of_in_tile htm hc2) hdom
    unfold chunked_level_data whole_level_data
    rw [write_tiles_of_not_mem hnone, if_neg hdom]

/-! ## The storage model

The storage engine is modelled as an object store: a group flag, an
association list of dense arrays keyed by level number (the array for level
`k` is created at path `l_k.tdb` under the fixed output path, so the level
number determines the URI), the group metadata, and the group members. -/

/-- A stored dense array: its schema, its `level` metadata entry, the opaque
reader metadata written into it, and its cell contents. -/
structure StoredArray where
  schema : Schema
  level_meta : Option Nat
  reader_meta : Option Nat
  data : Arr

/-- One per-level descriptor of the group-level `levels` metadata entry
(`meta_kvstore`): level number, axes string and shape. The `uri` field of the
source dict is `l_{level}.tdb` under the output path, determined by `level`. -/
structure LevelDesc where
  level : Nat
  axes : List Char
  shape : List Nat
deriving DecidableEq, Repr

/-- The whole-image group metadata written at the end of `to_tiledb`: the
source axes string, the opaque reader group metadata, and the JSON-encoded
list of per-level descriptors. (The constant `pkg_version`, `fmt_version` and
`dataset_type` markers are not modelled.) -/
structure GroupMeta where
  axes : List Char
  reader_meta : Nat
  levels : List LevelDesc
deriving DecidableEq

/-- The object store under the output path. -/
structure Store where
  is_group : Bool
  arrays : List (Nat × StoredArray)
  group_meta : Option GroupMeta
  members : List Nat

/-! ## Configuration of `to_tiledb` -/

/-- The pyramid generation parameter block (`pyramid_kwargs`), modelled from
the spec for the missing `converters/scale.py`: the per-level downsampling
factors, the axes that participate (default `XY`), and whether each level
derives from the previous level (`progressive`) or always from the base.
(The `chunked`, `order` and `max_workers` scaler options only affect how the
resampling is computed, which is abstracted into a `ScaleFn`.) -/
structure PyramidConfig where
  scale_factors : List Nat
  scale_axes : List Char := ['X', 'Y']
  progressive : Bool := false

/-- The configuration surface of `to_tiledb`. `pixel_depth` is the value of
`get_pixel_depth(compressor)`; that helper is not among the sources and is
modelled from the spec: 1 for ordinary filters, the folded channel count for
packed-pixel compressors. -/
structure ConvConfig where
  level_min : Nat
  tiles : Char → Option Nat
  preserve_axes : Bool
  chunked : Bool
  max_workers : Nat
  pixel_depth : Nat
  pyramid : Option PyramidConfig

/-- Modelled from the spec: the resampling performed by `Scaler.apply` for the
missing `converters/scale.py`, abstracted as a function of the source level's
contents, the scale-factor index, and the destination shape. -/
abbrev ScaleFn := Arr → Nat → List Nat → Arr

/-- Error outcomes of a `to_tiledb` run: the `NotImplementedError` raised for
packed-pixel input (the spec's `UnsupportedPixelPackingError`), the `NameError`
on the unbound `dim_names` local when no level was converted before pyramid
generation, the `IndexError` on `uris[0]` when `uris` is empty, and the
storage error of creating an array at an existing URI. -/
inductive RunError
  | pixel_packing
  | name_error_dim_names
  | index_error_empty_uris
  | array_exists
  | missing_array
deriving DecidableEq, Repr

/-! ## The native-level conversion loop of `to_tiledb` (lines 221-281) -/

/-- The target axes of a conversion: the source axes when `preserve_axes`,
else the canonical order. -/
def target_axes (reader : ImageReader) (cfg : ConvConfig) : List Char :=
  if cfg.preserve_axes then reader.axes else canonical_axes reader.axes

/-- The source-to-target axes mapper of a conversion. -/
def mapper_for (reader : ImageReader) (cfg : ConvConfig) : AxesMapper :=
  mk_mapper reader.axes (target_axes reader cfg)

/-- The destination shape of one level: the source shape permuted to target
order. -/
def level_dim_shape (reader : ImageReader) (cfg : ConvConfig) (level : Nat) : List Nat :=
  map_shape (mapper_for reader cfg) (reader.level_shape level)

/-- The schema created for one native level. -/
def level_schema (reader : ImageReader) (cfg : ConvConfig) (level : Nat) : Schema :=
  _get_schema (target_axes reader cfg) (level_dim_shape reader cfg level)
    (mk_max_tiles cfg.tiles cfg.pixel_depth) (reader.level_dtype level)

/-- The branch condition `if chunked or max_workers:` of the write path. -/
def use_chunked_path (cfg : ConvConfig) : Bool :=
  cfg.chunked || cfg.max_workers != 0

/-- The array written for one native level: schema, metadata, and contents
produced by the chunked path or the whole-image path according to
`use_chunked_path`. -/
def level_array (reader : ImageReader) (cfg : ConvConfig) (level : Nat) : StoredArray :=
  { schema := level_schema reader cfg level
    level_meta := some level
    reader_meta := some (reader.level_metadata level)
    data :=
      if use_chunked_path cfg then
        chunked_level_data reader level (mapper_for reader cfg) (level_schema reader cfg level)
      else
        whole_level_data reader level (mapper_for reader cfg) (level_schema reader cfg level) }

/-- The `meta_kvstore` descriptor appended to `levels_meta` for one native
level. -/
def level_desc (reader : ImageReader) (cfg : ConvConfig) (level : Nat) : LevelDesc :=
  { level := level, axes := target_axes reader cfg, shape := level_dim_shape reader cfg level }

/-- State threaded through the native-level loop: the store and the local
variables `uris`, `levels_meta`, `dim_names`, `attr_dtype` of `to_tiledb`
(the latter two are `none` while still unbound), plus the pending error. -/
structure NativeState where
  store : Store
  uris : List Nat
  levels_meta : List LevelDesc
  dim_names : Option (List Char)
  attr_dtype : Option Nat
  err : Option RunError

/-- One iteration of the native-level loop: skip the level if its array
already exists; otherwise, for pixel depth 1, create the level array, record
its URI and descriptor, and write metadata and image data; for any other
pixel depth raise (`NotImplementedError`). An earlier error aborts the
iteration. -/
def convert_level (reader : ImageReader) (cfg : ConvConfig) (st : NativeState)
    (level : Nat) : NativeState :=
  if st.err.isSome then st
  else
    match st.store.arrays.lookup level with
    | some _ => st
    | none =>
      if cfg.pixel_depth = 1 then
        { store := { st.store with
            arrays := st.store.arrays ++ [(level, level_array reader cfg level)] }
          uris := st.uris ++ [level]
          levels_meta := st.levels_meta ++ [level_desc reader cfg level]
          dim_names := some (target_axes reader cfg)
          attr_dtype := some (reader.level_dtype level)
          err := none }
      else { st with err := some .pixel_packing }

/-- `level_max`: the reader's level count, or `level_min + 1` when pyramid
generation is requested. -/
def native_level_max (reader : ImageReader) (cfg : ConvConfig) : Nat :=
  if cfg.pyramid.isSome then cfg.level_min + 1 else reader.level_count

/-- The levels iterated by the native loop:
`range(level_min, level_max)`. -/
def native_levels (reader : ImageReader) (cfg : ConvConfig) : List Nat :=
  List.range' cfg.level_min (native_level_max reader cfg - cfg.level_min)

/-- The loop state before the first native level: empty `uris` and
`levels_meta`, unbound `dim_names` and `attr_dtype`, no error. -/
def init_native_state (store : Store) : NativeState :=
  { store := store, uris := [], levels_meta := [], dim_names := none
    attr_dtype := none, err := none }

/-- The whole native-level loop. -/
def run_native (reader : ImageReader) (cfg : ConvConfig) (store : Store) : NativeState :=
  (native_levels reader cfg).foldl (convert_level reader cfg) (init_native_state store)

/-- The warning emitted before the loop when the image has levels beyond
`level_min + 1` but pyramid generation is enabled. -/
def pyramid_warned (reader : ImageReader) (cfg : ConvConfig) : Bool :=
  decide (cfg.level_min + 1 < reader.level_count) && cfg.pyramid.isSome

/-! ## Pyramid generation (`_scale`, lines 317-357) -/

/-- Ceiling division, the rounding of downsampled extents. -/
def ceil_div (n f : Nat) : Nat := (n + f - 1) / f

/-- Modelled from the spec: `Scaler.level_shapes` — one output shape per scale
factor, each dimension scaled by ceiling division when its axis participates,
held constant otherwise. -/
def scaler_level_shapes (py : PyramidConfig) (dim_names : List Char)
    (base_shape : List Nat) : List (List Nat) :=
  py.scale_factors.map (fun f =>
    List.zipWith (fun c n => if c ∈ py.scale_axes then ceil_div n f else n)
      dim_names base_shape)

/-- State threaded through the `_scale` loop, including the running `level`
counter and a trace recording, for each generated level, which array was
opened as the resampling source. -/
structure ScaleState where
  store : Store
  uris : List Nat
  levels_meta : List LevelDesc
  level : Nat
  scale_trace : List (Nat × Nat)
  err : Option RunError

/-- The array opened as the resampling source of one `_scale` iteration:
`uris[-1]` when the scaler is progressive, else `uris[0]`. -/
def scale_src_key (py : PyramidConfig) (st : ScaleState) : Nat :=
  if py.progressive then st.uris.getLastD 0 else st.uris.headD 0

/-- One iteration of the `_scale` loop for scale-factor index `p.1` with
destination shape `p.2`: create the destination array (an existing array at
that URI is a storage error), record its descriptor, open the source array
given by `scale_src_key`, and write the resampled contents. -/
def scale_step (py : PyramidConfig) (dim_names : List Char) (attr_dtype : Nat)
    (max_tiles : Char → Option Nat) (scaler_apply : ScaleFn)
    (st : ScaleState) (p : Nat × List Nat) : ScaleState :=
  if st.err.isSome then st
  else
    match st.store.arrays.lookup st.level with
    | some _ => { st with err := some .array_exists }
    | none =>
      match st.store.arrays.lookup (scale_src_key py st) with
      | none => { st with err := some .missing_array }
      | some src =>
        { store := { st.store with
            arrays := st.store.arrays ++
              [(st.level,
                { schema := _get_schema dim_names p.2 max_tiles attr_dtype
                  level_meta := some st.level, reader_meta := none
                  data := scaler_apply src.data p.1 p.2 })] }
          uris := st.uris ++ [st.level]
          levels_meta := st.levels_meta ++
            [{ level := st.level, axes := dim_names, shape := p.2 }]
          level := st.level + 1
          scale_trace := st.scale_trace ++ [(st.level, scale_src_key py st)]
          err := none }

/-- The whole `_scale` call: open `uris[0]` to obtain the base shape (an empty
`uris` is an `IndexError`), compute the level shapes, and run the loop
starting at `level_min + 1`. -/
def run_scale (py : PyramidConfig) (dim_names : List Char) (attr_dtype : Nat)
    (max_tiles : Char → Option Nat) (scaler_apply : ScaleFn) (level_min : Nat)
    (store : Store) (uris : List Nat) (levels_meta : List LevelDesc) : ScaleState :=
  match uris with
  | [] => { store := store, uris := uris, levels_meta := levels_meta
            level := level_min + 1, scale_trace := [], err := some .index_error_empty_uris }
  | u0 :: _ =>
    match store.arrays.lookup u0 with
    | none => { store := store, uris := uris, levels_meta := levels_meta
                level := level_min + 1, scale_trace := [], err := some .missing_array }
    | some base =>
      (scaler_level_shapes py dim_names (base.schema.dims.map (fun d => d.size))).enum.foldl
        (scale_step py dim_names attr_dtype max_tiles scaler_apply)
        { store := store, uris := uris, levels_meta := levels_meta
          level := level_min + 1, scale_trace := [], err := none }

/-! ## The complete `to_tiledb` run -/

/-- The outcome of a `to_tiledb` run: the final store, the error (if the run
raised), and — for stating properties — the values of the run's `uris` and
`levels_meta` locals, the emitted warning, and the scale source trace. -/
structure RunOutcome where
  store : Store
  err : Option RunError
  uris : List Nat
  levels_meta : List LevelDesc
  warn_flag : Bool
  scale_trace : List (Nat × Nat)

/-- The final group-metadata write (lines 296-310): update the group metadata
with the source axes, the reader group metadata and the JSON list of level
descriptors, and add the run's URIs as members. Performed once, after all
levels are materialized. -/
def finalize_group (reader : ImageReader) (store : Store) (uris : List Nat)
    (levels_meta : List LevelDesc) (warn : Bool) (trace : List (Nat × Nat)) :
    RunOutcome :=
  { store := { store with
      group_meta := some { axes := reader.axes, reader_meta := reader.group_metadata
                           levels := levels_meta }
      members := store.members ++ uris }
    err := none, uris := uris, levels_meta := levels_meta
    warn_flag := warn, scale_trace := trace }

/-- `if tiledb.object_type(output_path) != "group": tiledb.group_create(...)`. -/
def ensure_group (s : Store) : Store :=
  if s.is_group then s else { s with is_group := true }

/-- Outcome of the run after `_scale`: propagate its error, else write the
group metadata. -/
def scale_outcome (reader : ImageReader) (w : Bool) (ss : ScaleState) : RunOutcome :=
  match ss.err with
  | some e =>
    { store := ss.store, err := some e, uris := ss.uris
      levels_meta := ss.levels_meta, warn_flag := w, scale_trace := ss.scale_trace }
  | none => finalize_group reader ss.store ss.uris ss.levels_meta w ss.scale_trace

/-- The run after the native loop: propagate its error; else, when pyramid
generation is requested, call `_scale` with the loop's `dim_names` and
`attr_dtype` locals (evaluating an unbound local is a `NameError`); finally
write the group metadata. -/
def pyramid_phase (reader : ImageReader) (cfg : ConvConfig) (scaler_apply : ScaleFn)
    (ns : NativeState) (w : Bool) : RunOutcome :=
  match ns.err with
  | some e =>
    { store := ns.store, err := some e, uris := ns.uris, levels_meta := ns.levels_meta
      warn_flag := w, scale_trace := [] }
  | none =>
    match cfg.pyramid with
    | none => finalize_group reader ns.store ns.uris ns.levels_meta w []
    | some py =>
      match ns.dim_names, ns.attr_dtype with
      | some dn, some ad =>
        scale_outcome reader w (run_scale py dn ad (mk_max_tiles cfg.tiles cfg.pixel_depth)
          scaler_apply cfg.level_min ns.store ns.uris ns.levels_meta)
      | _, _ =>
        { store := ns.store, err := some .name_error_dim_names, uris := ns.uris
          levels_meta := ns.levels_meta, warn_flag := w, scale_trace := [] }

/-- Shallow embedding of `ImageConverter.to_tiledb`: ensure the output group
exists, convert the native levels, run pyramid generation when requested, and
finally write the group metadata. An error aborts the run with the store as
mutated so far. -/
def to_tiledb (reader : ImageReader) (cfg : ConvConfig) (scaler_apply : ScaleFn)
    (store0 : Store) : RunOutcome :=
  pyramid_phase reader cfg scaler_apply
    (run_native reader cfg (ensure_group store0)) (pyramid_warned reader cfg)

/-! ## Export (`from_tiledb`, lines 120-144)

`from_tiledb` opens the stored group through `TileDBOpenSlide` and drives the
format-specific writer. The slide's `from_group_uri` (in the sources) opens
every group member and sorts the arrays by their `level` metadata entry
(default 0); its `properties`, `levels`, `read_level` and `level_properties`
accessors are not among the sources and are modelled from the spec: the full
level is read back and translated to the original source axis order recorded
in the group metadata. -/

/-- Calls `from_tiledb` makes on the format-specific writer, in order. -/
inductive WEvent
  | group_meta (g : GroupMeta)
  | level_image (level : Nat) (image : Arr) (shape : List Nat) (meta : Option Nat)

/-- The axis labels of a stored array, from its schema's dimension names. -/
def stored_axes (a : StoredArray) : List Char := a.schema.dims.map (fun d => d.name)

/-- Modelled from the spec: `TileDBOpenSlide.read_level(level,
to_original_axes=True)` — the full level contents translated back to the
original source axis order (the group metadata `axes` entry). -/
def read_level_model (g : GroupMeta) (a : StoredArray) : Arr :=
  map_array (mk_mapper (stored_axes a) g.axes) a.data

/-- The shape of a level read back in original axis order. -/
def read_level_shape (g : GroupMeta) (a : StoredArray) : List Nat :=
  map_shape (mk_mapper (stored_axes a) g.axes) (a.schema.dims.map (fun d => d.size))

/-- Open every group member array, paired with its `level` metadata entry
(default 0), as `TileDBOpenSlide.from_group_uri` does; `none` if a member is
missing from the store. -/
def member_arrays (store : Store) : Option (List (Nat × StoredArray)) :=
  store.members.mapM (fun k =>
    (store.arrays.lookup k).map (fun a => (a.level_meta.getD 0, a)))

/-- Ordering of level arrays by their level number (`sort by level`). -/
def level_le (a b : Nat × StoredArray) : Prop := a.1 ≤ b.1

instance : DecidableRel level_le := fun a b => Nat.decLe a.1 b.1

instance : IsTotal (Nat × StoredArray) level_le := ⟨fun a b => Nat.le_total a.1 b.1⟩

instance : IsTrans (Nat × StoredArray) level_le := ⟨fun _ _ _ => Nat.le_trans⟩

/-- The slide's level arrays sorted by level number. -/
def slide_level_arrays (store : Store) : Option (List (Nat × StoredArray)) :=
  (member_arrays store).map (List.insertionSort level_le)

/-- Shallow embedding of `ImageConverter.from_tiledb`: write the group
metadata to the writer first, then iterate the slide's levels in order,
skipping those below `level_min` (`if level < level_min: continue`) and
handing each remaining full level image, translated to the original axis
order, to `write_level_image` together with that level's metadata. -/
def from_tiledb (store : Store) (level_min : Nat) : Option (List WEvent) :=
  match store.group_meta with
  | none => none
  | some g =>
    match slide_level_arrays store with
    | none => none
    | some arrs =>
      some (WEvent.group_meta g ::
        arrs.foldl (fun evs p =>
          if p.1 < level_min then evs
          else evs ++ [WEvent.level_image p.1 (read_level_model g p.2)
            (read_level_shape g p.2) p.2.reader_meta]) [])

/-! ## Generic fold invariants -/

theorem foldl_invariant {σ α : Type} {P : σ → Prop} (f : σ → α → σ)
    (step : ∀ s x, P s → P (f s x)) :
    ∀ (l : List α) (s : σ), P s → P (l.foldl f s) := by
  intro l
  induction l with
  | nil => intro s h; exact h
  | cons x xs ih => intro s h; exact ih (f s x) (step s x h)

/-! ## Association-list lookups -/

theorem lookup_append_some {β : Type} {l : List (Nat × β)} {k : Nat} {a : β}
    (h : l.lookup k = some a) (m : List (Nat × β)) : (l ++ m).lookup k = some a := by
  induction l with
  | nil => simp [List.lookup] at h
  | cons p l ih =>
    obtain ⟨q, v⟩ := p
    rw [List.cons_append]
    simp only [List.lookup] at h ⊢
    cases hk : (k == q) with
    | true => rw [hk] at h; simpa using h
    | false => rw [hk] at h; exact ih h

theorem lookup_append_none {β : Type} {l : List (Nat × β)} {k : Nat}
    (h : l.lookup k = none) (m : List (Nat × β)) : (l ++ m).lookup k = m.lookup k := by
  induction l with
  | nil => rfl
  | cons p l ih =>
    obtain ⟨q, v⟩ := p
    rw [List.cons_append]
    simp only [List.lookup] at h ⊢
    cases hk : (k == q) with
    | true => rw [hk] at h; simp at h
    | false => rw [hk] at h; exact ih h

theorem lookup_insert_self {β : Type} {l : List (Nat × β)} {k : Nat}
    (h : l.lookup k = none) (v : β) : (l ++ [(k, v)]).lookup k = some v := by
  rw [lookup_append_none h]
  simp [List.lookup]

theorem lookup_insert_ne {β : Type} {l : List (Nat × β)} {k k' : Nat}
    (h : k ≠ k') (v : β) : (l ++ [(k', v)]).lookup k = l.lookup k := by
  cases hl : l.lookup k with
  | some a => exact lookup_append_some hl _
  | none =>
    rw [lookup_append_none hl]
    simp [List.lookup, beq_eq_false_iff_ne.2 h]

/-! ## Preservation of pre-existing arrays across a run -/

theorem convert_level_preserves {reader : ImageReader} {cfg : ConvConfig}
    {k : Nat} {a : StoredArray} (st : NativeState) (level : Nat)
    (h : st.store.arrays.lookup k = some a) :
    (convert_level reader cfg st level).store.arrays.lookup k = some a := by
  unfold convert_level
  split
  · exact h
  · split
    · exact h
    · split
      · exact lookup_append_some h _
      · exact h

theorem run_native_preserves (reader : ImageReader) (cfg : ConvConfig) (store : Store)
    {k : Nat} {a : StoredArray} (h : store.arrays.lookup k = some a) :
    (run_native reader cfg store).store.arrays.lookup k = some a :=
  foldl_invariant _ (fun s x hp => convert_level_preserves s x hp) _ _ h

theorem scale_step_preserves {py : PyramidConfig} {dn : List Char} {ad : Nat}
    {mt : Char → Option Nat} {sa : ScaleFn} {k : Nat} {a : StoredArray}
    (st : ScaleState) (p : Nat × List Nat)
    (h : st.store.arrays.lookup k = some a) :
    (scale_step py dn ad mt sa st p).store.arrays.lookup k = some a := by
  unfold scale_step
  split
  · exact h
  · split
    · exact h
    · split
      · exact h
      · exact lookup_append_some h _

theorem run_scale_preserves (py : PyramidConfig) (dn : List Char) (ad : Nat)
    (mt : Char → Option Nat) (sa : ScaleFn) (lm : Nat) (store : Store)
    (uris : List Nat) (lmeta : List LevelDesc) {k : Nat} {a : StoredArray}
    (h : store.arrays.lookup k = some a) :
    (run_scale py dn ad mt sa lm store uris lmeta).store.arrays.lookup k = some a := by
  unfold run_scale
  split
  · exact h
  · split
    · exact h
    · exact foldl_invariant _ (fun s x hp => scale_step_preserves s x hp) _ _ h

theorem pyramid_phase_preserves (reader : ImageReader) (cfg : ConvConfig)
    (sa : ScaleFn) (ns : NativeState) (w : Bool) {k : Nat} {a : StoredArray}
    (h : ns.store.arrays.lookup k = some a) :
    (pyramid_phase reader cfg sa ns w).store.arrays.lookup k = some a := by
  unfold pyramid_phase
  split
  · exact h
  · split
    · exact h
    · split
      · unfold scale_outcome
        split
        · exact run_scale_preserves _ _ _ _ _ _ _ _ _ h
        · exact run_scale_preserves _ _ _ _ _ _ _ _ _ h
      · exact h

theorem to_tiledb_preserves_arrays (reader : ImageReader) (cfg : ConvConfig)
    (sa : ScaleFn) (store0 : Store) {k : Nat} {a : StoredArray}
    (h : store0.arrays.lookup k = some a) :
    (to_tiledb reader cfg sa store0).store.arrays.lookup k = some a := by
  have h1 : (ensure_group store0).arrays.lookup k = some a := by
    unfold ensure_group; split <;> exact h
  exact pyramid_phase_preserves reader cfg sa _ _
    (run_native_preserves reader cfg (ensure_group store0) h1)

theorem pyramid_phase_err_none {reader : ImageReader} {cfg : ConvConfig}
    {sa : ScaleFn} {ns : NativeState} {w : Bool}
    (h : (pyramid_phase reader cfg sa ns w).err = none) : ns.err = none := by
  unfold pyramid_phase at h
  cases hns : ns.err with
  | some e => rw [hns] at h; exact absurd h (by simp)
  | none => rfl

theorem convert_level_err {reader : ImageReader} {cfg : ConvConfig}
    {st : NativeState} (h : st.err.isSome) (l : Nat) :
    convert_level reader cfg st l = st := by
  unfold convert_level
  rw [if_pos h]

theorem foldl_convert_err {reader : ImageReader} {cfg : ConvConfig} :
    ∀ {levels : List Nat} {st : NativeState}, st.err.isSome →
    levels.foldl (convert_level reader cfg) st = st := by
  intro levels
  induction levels with
  | nil => intro st _; rfl
  | cons x xs ih =>
    intro st h
    show xs.foldl (convert_level reader cfg) (convert_level reader cfg st x) = st
    rw [convert_level_err h, ih h]

theorem foldl_convert_present {reader : ImageReader} {cfg : ConvConfig} :
    ∀ {levels : List Nat} {st : NativeState},
    (levels.foldl (convert_level reader cfg) st).err = none →
    ∀ l ∈ levels, (levels.foldl (convert_level reader cfg) st).store.arrays.lookup l ≠ none := by
  intro levels
  induction levels with
  | nil => intro st _ l hl; cases hl
  | cons x xs ih =>
    intro st herr l hl
    show (xs.foldl (convert_level reader cfg) (convert_level reader cfg st x)).store.arrays.lookup l ≠ none
    have herr2 : (xs.foldl (convert_level reader cfg) (convert_level reader cfg st x)).err = none := herr
    rcases List.mem_cons.1 hl with rfl | hxs
    · -- l = x: the head iteration either skips an existing array or inserts one
      by_cases he : st.err.isSome
      · exfalso
        rw [convert_level_err he, foldl_convert_err he] at herr2
        rw [Option.isSome_iff_exists] at he
        obtain ⟨e, hee⟩ := he
        rw [hee] at herr2
        cases herr2
      · cases hlk : st.store.arrays.lookup l with
        | some a =>
          have hcv : convert_level reader cfg st l = st := by
            unfold convert_level
            rw [if_neg he, hlk]
          rw [hcv]
          rw [foldl_invariant _ (fun s y hp => convert_level_preserves s y hp) xs _ hlk]
          simp
        | none =>
          by_cases hpd : cfg.pixel_depth = 1
          · have ha : (convert_level reader cfg st l).store.arrays.lookup l
                = some (level_array reader cfg l) := by
              unfold convert_level
              rw [if_neg he, hlk, if_pos hpd]
              exact lookup_insert_self hlk _
            rw [foldl_invariant _ (fun s y hp => convert_level_preserves s y hp) xs _ ha]
            simp
          · exfalso
            have hcv : convert_level reader cfg st l =
                { st with err := some .pixel_packing } := by
              unfold convert_level
              rw [if_neg he, hlk, if_neg hpd]
            rw [hcv, foldl_convert_err (by simp)] at herr2
            cases herr2
    · exact ih herr2 l hxs

/-! ## Claim C1: the dimension index dtype of `_get_schema` -/

/-- C1, counterexample: for a flattened cell count of 256 the code picks a
16-bit unsigned index dtype (`np.min_scalar_type(256)`), while the claim's
rule — the smallest unsigned width whose range covers `total_cell_count - 1`,
that is 255 — picks 8 bits; the two disagree. -/
theorem index_dtype_claim_cex :
    (_get_schema ['X'] [256] (fun _ => none) 0).dim_dtype = Dtype.u16 ∧
    spec_index_dtype_claim 256 = Dtype.u8 ∧
    (_get_schema ['X'] [256] (fun _ => none) 0).dim_dtype ≠ spec_index_dtype_claim 256 := by
  refine ⟨?_, by decide, ?_⟩ <;> decide

/-- C1 (amended): for positive extents whose product stays below `2 ^ 63`
(no int64 wrap-around in `np.prod`), the dimension index dtype chosen by
`_get_schema` is the smallest unsigned width among 8/16/32/64 bits whose range
covers the total cell count itself (so 255 selects 8 bits and 256 selects 16
bits). No overflow error is ever raised: the source has no
`SchemaOverflowError`, and a product beyond the int64 range silently wraps. -/
theorem index_dtype_amended (dim_names : List Char) (dim_shape : List Nat)
    (max_tiles : Char → Option Nat) (ad : Nat)
    (hpos : ∀ x ∈ dim_shape, 0 < x) (hb : nat_prod dim_shape < 2 ^ 63) :
    (_get_schema dim_names dim_shape max_tiles ad).dim_dtype =
      smallest_uint_covering (nat_prod dim_shape) := by
  show np_min_scalar_type (np_prod_int64 dim_shape) = _
  rw [np_prod_int64_eq_nat_prod hpos hb]
  exact min_scalar_type_of_uint hb

/-- Witness for C1 (amended) at the concrete shape `[3, 4]`. -/
theorem index_dtype_amended_witness :
    (_get_schema ['Y', 'X'] [3, 4] (fun _ => none) 0).dim_dtype =
      smallest_uint_covering (nat_prod [3, 4]) :=
  index_dtype_amended ['Y', 'X'] [3, 4] (fun _ => none) 0
    (by decide) (by decide)

/-! ## Concrete fixtures used by witnesses -/

/-- A concrete deterministic image: the cell value encodes the index. -/
def demo_image : Arr := fun idx => idx.foldl (fun a i => a * 5 + i) 1

/-- A concrete two-level reader over axes `YX` whose tiled reads are the
restrictions of its full reads. -/
def demo_reader : ImageReader :=
  { axes := ['Y', 'X']
    level_count := 2
    level_shape := fun l => if l = 0 then [2, 3] else [1, 2]
    level_dtype := fun _ => 0
    level_image := fun _ sel =>
      match sel with
      | none => demo_image
      | some t => fun rel => demo_image (add_offsets t rel)
    level_metadata := fun l => l + 100
    group_metadata := 42 }

/-- A concrete configuration: convert everything, defaults only. -/
def demo_cfg : ConvConfig :=
  { level_min := 0, tiles := fun _ => none, preserve_axes := false
    chunked := false, max_workers := 0, pixel_depth := 1, pyramid := none }

/-- A trivial resampler for the abstract `Scaler.apply`. -/
def demo_scaler : ScaleFn := fun src _ _ => src

/-- An empty output store. -/
def empty_store : Store :=
  { is_group := false, arrays := [], group_meta := none, members := [] }

/-- A pre-existing level-0 array, as left behind by an interrupted earlier
ingestion. -/
def dummy_array : StoredArray :=
  { schema := { dims := [{ name := 'Y', size := 2, tile := 2 }], dim_dtype := .u8, attr_dtype := 0 }
    level_meta := some 0, reader_meta := some 100, data := fun _ => 9 }

/-- A store where level 0 has already been converted but level 1 has not. -/
def store_with_l0 : Store :=
  { is_group := true, arrays := [(0, dummy_array)], group_meta := none, members := [0] }

/-! ## Claim C3: idempotent per-level skip -/

/-- C3: in every `to_tiledb` run, any pre-existing array under the output
path is left exactly as it was (skipped levels keep their contents, untouched
byte for byte), and on a successful run every level of the requested native
range ends up present — so a re-run after a partial ingestion regenerates
only the missing levels. -/
theorem resume_skip_thm (reader : ImageReader) (cfg : ConvConfig) (sa : ScaleFn)
    (store0 : Store) :
    (∀ k a, store0.arrays.lookup k = some a →
      (to_tiledb reader cfg sa store0).store.arrays.lookup k = some a) ∧
    ((to_tiledb reader cfg sa store0).err = none →
      ∀ l ∈ native_levels reader cfg,
        (to_tiledb reader cfg sa store0).store.arrays.lookup l ≠ none) := by
  constructor
  · intro k a h
    exact to_tiledb_preserves_arrays reader cfg sa store0 h
  · intro hsucc l hl
    have hns : (run_native reader cfg (ensure_group store0)).err = none :=
      pyramid_phase_err_none hsucc
    have hpres := foldl_convert_present hns l hl
    cases hsome : (run_native reader cfg (ensure_group store0)).store.arrays.lookup l with
    | none => exact absurd hsome hpres
    | some a =>
      have h2 := pyramid_phase_preserves reader cfg sa _ (pyramid_warned reader cfg) hsome
      show (pyramid_phase reader cfg sa (run_native reader cfg (ensure_group store0))
        (pyramid_warned reader cfg)).store.arrays.lookup l ≠ none
      rw [h2]
      simp

/-- Witness for C3: re-running over a store where level 0 already exists
leaves the level-0 array untouched and produces level 1. -/
theorem resume_skip_witness :
    (to_tiledb demo_reader demo_cfg demo_scaler store_with_l0).store.arrays.lookup 0
      = some dummy_array ∧
    (to_tiledb demo_reader demo_cfg demo_scaler store_with_l0).store.arrays.lookup 1
      ≠ none :=
  ⟨(resume_skip_thm demo_reader demo_cfg demo_scaler store_with_l0).1 0 dummy_array rfl,
    (resume_skip_thm demo_reader demo_cfg demo_scaler store_with_l0).2 rfl 1 (by decide)⟩

/-! ## Claim C8: packed-pixel input -/

theorem ensure_group_arrays (s : Store) : (ensure_group s).arrays = s.arrays := by
  unfold ensure_group
  split <;> rfl

theorem foldl_convert_packing {reader : ImageReader} {cfg : ConvConfig}
    (hpd : cfg.pixel_depth ≠ 1) :
    ∀ {levels : List Nat} {st : NativeState}, st.err = none →
    (∃ l ∈ levels, st.store.arrays.lookup l = none) →
    levels.foldl (convert_level reader cfg) st = { st with err := some .pixel_packing } := by
  intro levels
  induction levels with
  | nil =>
    intro st _ hfr
    obtain ⟨l, hl, _⟩ := hfr
    cases hl
  | cons x xs ih =>
    intro st herr hfr
    obtain ⟨l, hl, hfrl⟩ := hfr
    show xs.foldl (convert_level reader cfg) (convert_level reader cfg st x)
      = { st with err := some .pixel_packing }
    cases hlx : st.store.arrays.lookup x with
    | some a =>
      have hcv : convert_level reader cfg st x = st := by
        unfold convert_level
        rw [if_neg (by simp [herr]), hlx]
      rw [hcv]
      apply ih herr
      rcases List.mem_cons.1 hl with rfl | hxs
      · rw [hfrl] at hlx; cases hlx
      · exact ⟨l, hxs, hfrl⟩
    | none =>
      have hcv : convert_level reader cfg st x = { st with err := some .pixel_packing } := by
        unfold convert_level
        rw [if_neg (by simp [herr]), hlx, if_neg hpd]
      rw [hcv, foldl_convert_err (by simp)]

/-- C8 (amended): with a packed-pixel compressor (`pixel_depth ≠ 1`),
`to_tiledb` fails with the packed-pixel error (`NotImplementedError` in the
source, the spec's `UnsupportedPixelPackingError`) as soon as the loop reaches
a level of the requested range whose array does not already exist — before any
level array is created or written, so the stored arrays are exactly those of
the initial store. When every level in the range already exists (or the range
is empty), no such error is raised and the run completes. -/
theorem pixel_packing_amended (reader : ImageReader) (cfg : ConvConfig)
    (sa : ScaleFn) (store0 : Store) (hpd : cfg.pixel_depth ≠ 1)
    (hfresh : ∃ l ∈ native_levels reader cfg, store0.arrays.lookup l = none) :
    (to_tiledb reader cfg sa store0).err = some .pixel_packing ∧
    (to_tiledb reader cfg sa store0).store.arrays = store0.arrays := by
  obtain ⟨l, hl, hfr⟩ := hfresh
  have hrun : run_native reader cfg (ensure_group store0) =
      { store := ensure_group store0, uris := [], levels_meta := []
        dim_names := none, attr_dtype := none, err := some .pixel_packing } := by
    show (native_levels reader cfg).foldl (convert_level reader cfg)
        { store := ensure_group store0, uris := [], levels_meta := []
          dim_names := none, attr_dtype := none, err := none } = _
    rw [foldl_convert_packing hpd rfl ⟨l, hl, by rw [ensure_group_arrays]; exact hfr⟩]
  show (pyramid_phase reader cfg sa (run_native reader cfg (ensure_group store0))
      (pyramid_warned reader cfg)).err = some .pixel_packing ∧
    (pyramid_phase reader cfg sa (run_native reader cfg (ensure_group store0))
      (pyramid_warned reader cfg)).store.arrays = store0.arrays
  rw [hrun]
  exact ⟨rfl, ensure_group_arrays store0⟩

/-- Witness for C8 (amended): a packed-pixel run over an empty store fails
with the packing error before creating any array. -/
theorem pixel_packing_amended_witness :
    (to_tiledb { demo_reader with level_count := 1 }
      { demo_cfg with pixel_depth := 3 } demo_scaler empty_store).err
        = some .pixel_packing ∧
    (to_tiledb { demo_reader with level_count := 1 }
      { demo_cfg with pixel_depth := 3 } demo_scaler empty_store).store.arrays
        = empty_store.arrays :=
  pixel_packing_amended _ _ _ _ (by decide) ⟨0, by decide, rfl⟩

/-- C8, counterexample: a packed-pixel ingestion (`pixel_depth = 3`) over a
store whose single requested level already exists completes without raising —
the loop never reaches an unconverted level — and even writes the group
metadata, contradicting the claim that every packed-pixel ingestion fails
fatally before any storage mutation. -/
theorem pixel_packing_claim_cex :
    (3 : Nat) ≠ 1 ∧
    (to_tiledb { demo_reader with level_count := 1 }
      { demo_cfg with pixel_depth := 3 } demo_scaler store_with_l0).err = none ∧
    (to_tiledb { demo_reader with level_count := 1 }
      { demo_cfg with pixel_depth := 3 } demo_scaler store_with_l0).store.group_meta
      ≠ none := by
  refine ⟨by decide, rfl, ?_⟩
  intro h
  cases h

/-! ## Characterization of the native loop over fresh levels -/

theorem foldl_convert_fresh {reader : ImageReader} {cfg : ConvConfig}
    (hpd : cfg.pixel_depth = 1) :
    ∀ {levels : List Nat} {st : NativeState}, st.err = none →
    (∀ l ∈ levels, st.store.arrays.lookup l = none) → levels.Nodup →
    (levels.foldl (convert_level reader cfg) st).err = none ∧
    (levels.foldl (convert_level reader cfg) st).uris = st.uris ++ levels ∧
    (levels.foldl (convert_level reader cfg) st).levels_meta
      = st.levels_meta ++ levels.map (level_desc reader cfg) ∧
    (levels.foldl (convert_level reader cfg) st).store.arrays
      = st.store.arrays ++ levels.map (fun l => (l, level_array reader cfg l)) ∧
    (levels ≠ [] →
      (levels.foldl (convert_level reader cfg) st).dim_names
          = some (target_axes reader cfg) ∧
      (levels.foldl (convert_level reader cfg) st).attr_dtype.isSome = true) ∧
    (levels = [] →
      (levels.foldl (convert_level reader cfg) st).dim_names = st.dim_names ∧
      (levels.foldl (convert_level reader cfg) st).attr_dtype = st.attr_dtype) := by
  intro levels
  induction levels with
  | nil =>
    intro st herr _ _
    exact ⟨herr, by simp, by simp, by simp, fun h => absurd rfl h, fun _ => ⟨rfl, rfl⟩⟩
  | cons x xs ih =>
    intro st herr hfr hnd
    have hfrx : st.store.arrays.lookup x = none := hfr x (by simp)
    have hcv : convert_level reader cfg st x =
        { store := { st.store with
            arrays := st.store.arrays ++ [(x, level_array reader cfg x)] }
          uris := st.uris ++ [x]
          levels_meta := st.levels_meta ++ [level_desc reader cfg x]
          dim_names := some (target_axes reader cfg)
          attr_dtype := some (reader.level_dtype x)
          err := none } := by
      unfold convert_level
      rw [if_neg (by simp [herr]), hfrx, if_pos hpd]
    have hxs : ∀ l ∈ xs, (convert_level reader cfg st x).store.arrays.lookup l = none := by
      intro l hlxs
      rw [hcv]
      show (st.store.arrays ++ [(x, level_array reader cfg x)]).lookup l = none
      rw [lookup_insert_ne (by rintro rfl; exact (List.nodup_cons.1 hnd).1 hlxs) _]
      exact hfr l (List.mem_cons_of_mem _ hlxs)
    have herr1 : (convert_level reader cfg st x).err = none := by rw [hcv]
    obtain ⟨ih1, ih2, ih3, ih4, ih5, ih6⟩ := ih herr1 hxs (List.nodup_cons.1 hnd).2
    refine ⟨ih1, ?_, ?_, ?_, ?_, fun h => nomatch h⟩
    · show (xs.foldl (convert_level reader cfg) (convert_level reader cfg st x)).uris = _
      rw [ih2, hcv]
      simp
    · show (xs.foldl (convert_level reader cfg) (convert_level reader cfg st x)).levels_meta = _
      rw [ih3, hcv]
      simp
    · show (xs.foldl (convert_level reader cfg) (convert_level reader cfg st x)).store.arrays = _
      rw [ih4, hcv]
      simp
    · intro _
      cases hxe : xs with
      | nil =>
        refine ⟨?_, ?_⟩
        · show (convert_level reader cfg st x).dim_names = some (target_axes reader cfg)
          rw [hcv]
        · show (convert_level reader cfg st x).attr_dtype.isSome = true
          rw [hcv]
          rfl
      | cons y ys =>
        have h5 := ih5 (by rw [hxe]; simp)
        rw [hxe] at h5
        exact h5

/-! ## Claim C5: pyramid generation converts exactly one native level -/

theorem pyramid_phase_warn (reader : ImageReader) (cfg : ConvConfig) (sa : ScaleFn)
    (ns : NativeState) (w : Bool) : (pyramid_phase reader cfg sa ns w).warn_flag = w := by
  unfold pyramid_phase
  split
  · rfl
  · split
    · rfl
    · split
      · unfold scale_outcome
        split <;> rfl
      · rfl

/-- C5: when pyramid generation is requested, the native loop iterates exactly
the single level `level_min` instead of the reader's full range, and the
warning that all levels except level zero will be skipped is emitted exactly
when the source has levels beyond `level_min + 1`; without pyramid generation
it iterates every level from `level_min` to `level_count - 1`. Over a fresh
store with an ordinary compressor, the created level URIs are exactly the
iterated levels. -/
theorem pyramid_single_level_thm (reader : ImageReader) (cfg : ConvConfig)
    (sa : ScaleFn) (store0 : Store)
    (hpd : cfg.pixel_depth = 1) (hempty : store0.arrays = []) :
    (cfg.pyramid.isSome = true → native_levels reader cfg = [cfg.level_min]) ∧
    (cfg.pyramid = none →
      native_levels reader cfg
        = List.range' cfg.level_min (reader.level_count - cfg.level_min)) ∧
    ((to_tiledb reader cfg sa store0).warn_flag
        = (cfg.pyramid.isSome && decide (cfg.level_min + 1 < reader.level_count))) ∧
    (run_native reader cfg (ensure_group store0)).uris = native_levels reader cfg := by
  refine ⟨?_, ?_, ?_, ?_⟩
  · intro h
    unfold native_levels native_level_max
    rw [h]
    simp
  · intro h
    unfold native_levels native_level_max
    rw [h]
    rfl
  · show (pyramid_phase reader cfg sa (run_native reader cfg (ensure_group store0))
      (pyramid_warned reader cfg)).warn_flag = _
    rw [pyramid_phase_warn]
    unfold pyramid_warned
    exact Bool.and_comm _ _
  · have hfr : ∀ l ∈ native_levels reader cfg,
        (init_native_state (ensure_group store0)).store.arrays.lookup l = none := by
      intro l _
      show (ensure_group store0).arrays.lookup l = none
      rw [ensure_group_arrays, hempty]
      rfl
    have hnd : (native_levels reader cfg).Nodup := List.nodup_range' _ _ 1 one_pos
    obtain ⟨-, h2, -, -, -, -⟩ := foldl_convert_fresh hpd rfl hfr hnd
    show ((native_levels reader cfg).foldl (convert_level reader cfg)
      (init_native_state (ensure_group store0))).uris = native_levels reader cfg
    rw [h2]
    rfl

/-- Witness for C5: pyramid generation with a two-level reader converts only
level 0, with the warning raised. -/
theorem pyramid_single_level_witness :
    native_levels demo_reader
      { demo_cfg with pyramid := some { scale_factors := [2] } } = [0] ∧
    (to_tiledb demo_reader { demo_cfg with pyramid := some { scale_factors := [2] } }
      demo_scaler empty_store).warn_flag = true ∧
    (run_native demo_reader { demo_cfg with pyramid := some { scale_factors := [2] } }
      (ensure_group empty_store)).uris = [0] := by
  have h := pyramid_single_level_thm demo_reader
    { demo_cfg with pyramid := some { scale_factors := [2] } } demo_scaler
    empty_store rfl rfl
  refine ⟨?_, ?_, ?_⟩
  · rw [h.1 rfl]
    rfl
  · rw [h.2.2.1]
    rfl
  · rw [h.2.2.2, h.1 rfl]
    rfl

/-! ## Provenance of arrays present after a run -/

theorem lookup_append_single {β : Type} {l : List (Nat × β)} {k k' : Nat} {v a : β}
    (h : (l ++ [(k', v)]).lookup k = some a) :
    l.lookup k = some a ∨ (k = k' ∧ a = v) := by
  cases hl : l.lookup k with
  | some b =>
    left
    rw [lookup_append_some hl] at h
    exact h
  | none =>
    right
    rw [lookup_append_none hl] at h
    simp only [List.lookup] at h
    cases hk : (k == k') with
    | true =>
      rw [hk] at h
      refine ⟨by simpa using hk, ?_⟩
      cases h
      rfl
    | false => rw [hk] at h; cases h

theorem convert_fold_origin (reader : ImageReader) (cfg : ConvConfig)
    {k : Nat} {a : StoredArray} :
    ∀ (levels : List Nat) (st : NativeState),
    (levels.foldl (convert_level reader cfg) st).store.arrays.lookup k = some a →
    st.store.arrays.lookup k = some a ∨
      (cfg.pixel_depth = 1 ∧ a = level_array reader cfg k) := by
  intro levels
  induction levels with
  | nil => exact fun st h => Or.inl h
  | cons x xs ih =>
    intro st h
    rcases ih (convert_level reader cfg st x) h with h1 | h1
    · revert h1
      unfold convert_level
      split
      · exact Or.inl
      · split
        · exact Or.inl
        · by_cases hpd : cfg.pixel_depth = 1
          · rw [if_pos hpd]
            intro h1
            rcases lookup_append_single h1 with hold | ⟨rfl, rfl⟩
            · exact Or.inl hold
            · exact Or.inr ⟨hpd, rfl⟩
          · rw [if_neg hpd]
            exact Or.inl
    · exact Or.inr h1

theorem run_native_origin (reader : ImageReader) (cfg : ConvConfig) (store : Store)
    {k : Nat} {a : StoredArray}
    (h : (run_native reader cfg store).store.arrays.lookup k = some a) :
    store.arrays.lookup k = some a ∨
      (cfg.pixel_depth = 1 ∧ a = level_array reader cfg k) :=
  convert_fold_origin reader cfg (native_levels reader cfg) (init_native_state store) h

theorem convert_fold_dim_pd (reader : ImageReader) (cfg : ConvConfig) :
    ∀ (levels : List Nat) (st : NativeState),
    ((levels.foldl (convert_level reader cfg) st).dim_names).isSome = true →
    st.dim_names.isSome = true ∨ cfg.pixel_depth = 1 := by
  intro levels
  induction levels with
  | nil => exact fun st h => Or.inl h
  | cons x xs ih =>
    intro st h
    rcases ih (convert_level reader cfg st x) h with h1 | h1
    · revert h1
      unfold convert_level
      split
      · exact Or.inl
      · split
        · exact Or.inl
        · by_cases hpd : cfg.pixel_depth = 1
          · rw [if_pos hpd]
            exact fun _ => Or.inr hpd
          · rw [if_neg hpd]
            exact Or.inl
    · exact Or.inr h1

theorem run_native_dim_names_pd (reader : ImageReader) (cfg : ConvConfig) (store : Store)
    (h : ((run_native reader cfg store).dim_names).isSome = true) :
    cfg.pixel_depth = 1 := by
  rcases convert_fold_dim_pd reader cfg (native_levels reader cfg)
    (init_native_state store) h with h1 | h1
  · cases h1
  · exact h1

/-- Shape of every array inserted by the `_scale` fold: a schema from
`_get_schema` over the loop's `dim_names`, tile bounds and `attr_dtype`, with
a level number at least `b`. -/
def scale_made (dn : List Char) (ad : Nat) (mt : Char → Option Nat) (sa : ScaleFn)
    (b k : Nat) (a : StoredArray) : Prop :=
  b ≤ k ∧ ∃ shape idx src,
    a = { schema := _get_schema dn shape mt ad
          level_meta := some k, reader_meta := none
          data := sa src idx shape }

theorem scale_fold_origin (py : PyramidConfig) (dn : List Char) (ad : Nat)
    (mt : Char → Option Nat) (sa : ScaleFn) (b : Nat) (Q : Nat → StoredArray → Prop) :
    ∀ (ps : List (Nat × List Nat)) (ss : ScaleState), b ≤ ss.level →
    (∀ k a, ss.store.arrays.lookup k = some a → Q k a ∨ scale_made dn ad mt sa b k a) →
    b ≤ (ps.foldl (scale_step py dn ad mt sa) ss).level ∧
    ∀ k a, (ps.foldl (scale_step py dn ad mt sa) ss).store.arrays.lookup k = some a →
      Q k a ∨ scale_made dn ad mt sa b k a := by
  intro ps
  induction ps with
  | nil => exact fun ss hlev hq => ⟨hlev, hq⟩
  | cons p ps ih =>
    intro ss hlev hq
    apply ih
    · show b ≤ (scale_step py dn ad mt sa ss p).level
      unfold scale_step
      split
      · exact hlev
      · split
        · exact hlev
        · split
          · exact hlev
          · exact Nat.le_succ_of_le hlev
    · intro k a hk
      revert hk
      unfold scale_step
      split
      · exact hq k a
      · split
        · exact hq k a
        · split
          · exact hq k a
          · intro hk
            rcases lookup_append_single hk with hold | ⟨rfl, rfl⟩
            · exact hq _ _ hold
            · exact Or.inr ⟨hlev, p.2, p.1, _, rfl⟩

theorem run_scale_origin (py : PyramidConfig) (dn : List Char) (ad : Nat)
    (mt : Char → Option Nat) (sa : ScaleFn) (lm : Nat)
    (store : Store) (uris : List Nat) (lmeta : List LevelDesc)
    (Q : Nat → StoredArray → Prop)
    (h0 : ∀ k a, store.arrays.lookup k = some a → Q k a) {k : Nat} {a : StoredArray}
    (h : (run_scale py dn ad mt sa lm store uris lmeta).store.arrays.lookup k = some a) :
    Q k a ∨ scale_made dn ad mt sa (lm + 1) k a := by
  revert h
  unfold run_scale
  split
  · exact fun h => Or.inl (h0 _ _ h)
  · split
    · exact fun h => Or.inl (h0 _ _ h)
    · intro h
      exact (scale_fold_origin py dn ad mt sa (lm + 1) Q _ _ (Nat.le_refl _)
        (fun k a hk => Or.inl (h0 _ _ hk))).2 _ _ h

/-! Case equations for `pyramid_phase`. -/

theorem pyramid_phase_eq_err {reader : ImageReader} {cfg : ConvConfig} {sa : ScaleFn}
    {ns : NativeState} {w : Bool} {e : RunError} (h : ns.err = some e) :
    pyramid_phase reader cfg sa ns w =
      { store := ns.store, err := some e, uris := ns.uris, levels_meta := ns.levels_meta
        warn_flag := w, scale_trace := [] } := by
  unfold pyramid_phase
  rw [h]

theorem pyramid_phase_eq_plain {reader : ImageReader} {cfg : ConvConfig} {sa : ScaleFn}
    {ns : NativeState} {w : Bool} (h1 : ns.err = none) (h2 : cfg.pyramid = none) :
    pyramid_phase reader cfg sa ns w =
      finalize_group reader ns.store ns.uris ns.levels_meta w [] := by
  unfold pyramid_phase
  rw [h1, h2]

theorem pyramid_phase_eq_scale {reader : ImageReader} {cfg : ConvConfig} {sa : ScaleFn}
    {ns : NativeState} {w : Bool} {py : PyramidConfig} {dn : List Char} {ad : Nat}
    (h1 : ns.err = none) (h2 : cfg.pyramid = some py)
    (h3 : ns.dim_names = some dn) (h4 : ns.attr_dtype = some ad) :
    pyramid_phase reader cfg sa ns w =
      scale_outcome reader w (run_scale py dn ad (mk_max_tiles cfg.tiles cfg.pixel_depth)
        sa cfg.level_min ns.store ns.uris ns.levels_meta) := by
  unfold pyramid_phase
  rw [h1, h2, h3, h4]

theorem pyramid_phase_eq_nameerr {reader : ImageReader} {cfg : ConvConfig} {sa : ScaleFn}
    {ns : NativeState} {w : Bool} {py : PyramidConfig}
    (h1 : ns.err = none) (h2 : cfg.pyramid = some py) (h3 : ns.dim_names = none) :
    pyramid_phase reader cfg sa ns w =
      { store := ns.store, err := some .name_error_dim_names, uris := ns.uris
        levels_meta := ns.levels_meta, warn_flag := w, scale_trace := [] } := by
  unfold pyramid_phase
  rw [h1, h2, h3]

theorem pyramid_phase_eq_nameerr2 {reader : ImageReader} {cfg : ConvConfig} {sa : ScaleFn}
    {ns : NativeState} {w : Bool} {py : PyramidConfig} {dn : List Char}
    (h1 : ns.err = none) (h2 : cfg.pyramid = some py)
    (h3 : ns.dim_names = some dn) (h4 : ns.attr_dtype = none) :
    pyramid_phase reader cfg sa ns w =
      { store := ns.store, err := some .name_error_dim_names, uris := ns.uris
        levels_meta := ns.levels_meta, warn_flag := w, scale_trace := [] } := by
  unfold pyramid_phase
  rw [h1, h2, h3, h4]

/-- Provenance of every array present after a `to_tiledb` run: it was already
in the initial store, or it is the native conversion of its level (created
only with pixel depth 1), or it was generated by `_scale` at a level at least
`level_min + 1` (pyramid mode only). -/
theorem to_tiledb_array_origin (reader : ImageReader) (cfg : ConvConfig) (sa : ScaleFn)
    (store0 : Store) {k : Nat} {a : StoredArray}
    (h : (to_tiledb reader cfg sa store0).store.arrays.lookup k = some a) :
    store0.arrays.lookup k = some a ∨
    (cfg.pixel_depth = 1 ∧ a = level_array reader cfg k) ∨
    (cfg.pixel_depth = 1 ∧ cfg.pyramid.isSome = true ∧
      ∃ dn ad, scale_made dn ad (mk_max_tiles cfg.tiles cfg.pixel_depth) sa
        (cfg.level_min + 1) k a) := by
  have hQ : ∀ {k2 : Nat} {a2 : StoredArray},
      (run_native reader cfg (ensure_group store0)).store.arrays.lookup k2 = some a2 →
      store0.arrays.lookup k2 = some a2 ∨
        (cfg.pixel_depth = 1 ∧ a2 = level_array reader cfg k2) := by
    intro k2 a2 hk
    rcases run_native_origin reader cfg (ensure_group store0) hk with h1 | h1
    · left
      rw [ensure_group_arrays] at h1
      exact h1
    · right
      exact h1
  unfold to_tiledb at h
  cases herr : (run_native reader cfg (ensure_group store0)).err with
  | some e =>
    rw [pyramid_phase_eq_err herr] at h
    rcases hQ h with h1 | h1
    · exact Or.inl h1
    · exact Or.inr (Or.inl h1)
  | none =>
    cases hpy : cfg.pyramid with
    | none =>
      rw [pyramid_phase_eq_plain herr hpy] at h
      rcases hQ h with h1 | h1
      · exact Or.inl h1
      · exact Or.inr (Or.inl h1)
    | some py =>
      cases hdn : (run_native reader cfg (ensure_group store0)).dim_names with
      | none =>
        rw [pyramid_phase_eq_nameerr herr hpy hdn] at h
        rcases hQ h with h1 | h1
        · exact Or.inl h1
        · exact Or.inr (Or.inl h1)
      | some dn =>
        cases had : (run_native reader cfg (ensure_group store0)).attr_dtype with
        | none =>
          rw [pyramid_phase_eq_nameerr2 herr hpy hdn had] at h
          rcases hQ h with h1 | h1
          · exact Or.inl h1
          · exact Or.inr (Or.inl h1)
        | some ad =>
          have hpd : cfg.pixel_depth = 1 :=
            run_native_dim_names_pd reader cfg (ensure_group store0) (by rw [hdn]; rfl)
          rw [pyramid_phase_eq_scale herr hpy hdn had] at h
          have h2 : (run_scale py dn ad (mk_max_tiles cfg.tiles cfg.pixel_depth) sa
              cfg.level_min (run_native reader cfg (ensure_group store0)).store
              (run_native reader cfg (ensure_group store0)).uris
              (run_native reader cfg (ensure_group store0)).levels_meta).store.arrays.lookup k
              = some a := by
            revert h
            unfold scale_outcome
            split <;> exact fun h => h
          rcases run_scale_origin py dn ad (mk_max_tiles cfg.tiles cfg.pixel_depth) sa
              cfg.level_min _ _ _ _ (fun k2 a2 hk => hQ hk) h2 with h1 | h1
          · rcases h1 with h1 | h1
            · exact Or.inl h1
            · exact Or.inr (Or.inl h1)
          · exact Or.inr (Or.inr ⟨hpd, rfl, dn, ad, h1⟩)

/-! ## Claim C10: which write path each converted level takes -/

/-- C10: every level the native loop converts stores exactly the data of the
chunked tile-by-tile path when `chunked or max_workers` is truthy, and of the
single whole-image write only when `chunked` is false and `max_workers` is 0 —
so `chunked=False` with `max_workers > 0` still populates tile by tile. -/
theorem write_path_thm (reader : ImageReader) (cfg : ConvConfig) (sa : ScaleFn)
    (store0 : Store) {l : Nat} {arr : StoredArray}
    (hnew : store0.arrays.lookup l = none)
    (hlt : l < native_level_max reader cfg)
    (hfound : (to_tiledb reader cfg sa store0).store.arrays.lookup l = some arr) :
    arr.data =
      if use_chunked_path cfg then
        chunked_level_data reader l (mapper_for reader cfg) (level_schema reader cfg l)
      else
        whole_level_data reader l (mapper_for reader cfg) (level_schema reader cfg l) := by
  rcases to_tiledb_array_origin reader cfg sa store0 hfound with
    h0 | ⟨_, rfl⟩ | ⟨_, hsome, _, _, hmade⟩
  · rw [h0] at hnew
    cases hnew
  · rfl
  · exfalso
    have hge : cfg.level_min + 1 ≤ l := hmade.1
    unfold native_level_max at hlt
    rw [if_pos hsome] at hlt
    omega

/-- Witness for C10: with `chunked=False` but `max_workers = 4` the converted
level holds the chunked-path contents. -/
theorem write_path_witness :
    (level_array demo_reader { demo_cfg with max_workers := 4 } 0).data =
      if use_chunked_path { demo_cfg with max_workers := 4 } then
        chunked_level_data demo_reader 0
          (mapper_for demo_reader { demo_cfg with max_workers := 4 })
          (level_schema demo_reader { demo_cfg with max_workers := 4 } 0)
      else
        whole_level_data demo_reader 0
          (mapper_for demo_reader { demo_cfg with max_workers := 4 })
          (level_schema demo_reader { demo_cfg with max_workers := 4 } 0) :=
  write_path_thm demo_reader { demo_cfg with max_workers := 4 } demo_scaler
    empty_store rfl (by decide) rfl

/-! ## Claim C2: the tile-size policy -/

/-- The claim's tile rule, from the spec's words: `min(extent, requested)`,
with per-kind defaults for unset dimensions — unit tile for T and Z (and for
labels outside TCZYX, which the `Axes` invariant precludes and the source dict
would reject with `KeyError`), a full-extent tile for C, 1024 for Y and X. -/
def spec_tile_policy (tiles : Char → Option Nat) (c : Char) (size : Nat) : Nat :=
  match tiles c with
  | some t => min size t
  | none =>
    if c = 'C' then size
    else if c = 'Y' ∨ c = 'X' then min size 1024
    else min size 1

theorem get_schema_tile_policy (dn : List Char) (shape : List Nat)
    (tiles : Char → Option Nat) (ad : Nat) :
    ∀ d ∈ (_get_schema dn shape (mk_max_tiles tiles 1) ad).dims,
      d.tile = spec_tile_policy tiles d.name d.size := by
  intro d hd
  simp only [_get_schema, List.mem_map] at hd
  obtain ⟨p, -, rfl⟩ := hd
  obtain ⟨c, n⟩ := p
  show min_tile n (mk_max_tiles tiles 1 c) = spec_tile_policy tiles c n
  rcases ht : tiles c with _ | t
  · by_cases hx : c = 'X'
    · subst hx
      simp [min_tile, mk_max_tiles, with_defaults, default_tiles, spec_tile_policy, ht]
    · by_cases hc : c = 'C'
      · subst hc
        simp [min_tile, mk_max_tiles, with_defaults, default_tiles, spec_tile_policy,
          ht, hx]
      · by_cases hy : c = 'Y'
        · subst hy
          simp [min_tile, mk_max_tiles, with_defaults, default_tiles, spec_tile_policy,
            ht, hx, hc]
        · simp [min_tile, mk_max_tiles, with_defaults, default_tiles, spec_tile_policy,
            ht, hx, hc, hy]
  · by_cases hx : c = 'X'
    · subst hx
      simp [min_tile, mk_max_tiles, with_defaults, spec_tile_policy, ht, Nat.mul_one]
    · simp [min_tile, mk_max_tiles, with_defaults, spec_tile_policy, ht, hx]

/-- C2: every dimension of every level array schema generated by a
`to_tiledb` run (native levels and pyramid-generated levels alike) has tile
size `min(extent, requested max tile)`, with unset dimensions defaulting per
kind: 1 for T and Z, full extent for C, 1024 for Y and X. -/
theorem tile_policy_thm (reader : ImageReader) (cfg : ConvConfig) (sa : ScaleFn)
    (store0 : Store) {k : Nat} {arr : StoredArray}
    (hnew : store0.arrays.lookup k = none)
    (hfound : (to_tiledb reader cfg sa store0).store.arrays.lookup k = some arr) :
    ∀ d ∈ arr.schema.dims, d.tile = spec_tile_policy cfg.tiles d.name d.size := by
  rcases to_tiledb_array_origin reader cfg sa store0 hfound with
    h0 | ⟨hpd, rfl⟩ | ⟨hpd, -, dn, ad, hmade⟩
  · rw [h0] at hnew
    cases hnew
  · show ∀ d ∈ (level_array reader cfg k).schema.dims, _
    have hsch : (level_array reader cfg k).schema
        = _get_schema (target_axes reader cfg) (level_dim_shape reader cfg k)
          (mk_max_tiles cfg.tiles 1) (reader.level_dtype k) := by
      rw [← hpd]
      rfl
    rw [hsch]
    exact get_schema_tile_policy _ _ _ _
  · obtain ⟨shape, idx, src, rfl⟩ := hmade.2
    show ∀ d ∈ (_get_schema dn shape (mk_max_tiles cfg.tiles cfg.pixel_depth) ad).dims, _
    rw [hpd]
    exact get_schema_tile_policy _ _ _ _

/-- Witness for C2: the default policy on the Y dimension of a fresh
conversion of the demo image. -/
theorem tile_policy_witness :
    ({ name := 'Y', size := 2, tile := 2 } : SchemaDim).tile
      = spec_tile_policy demo_cfg.tiles
          ({ name := 'Y', size := 2, tile := 2 } : SchemaDim).name
          ({ name := 'Y', size := 2, tile := 2 } : SchemaDim).size :=
  @tile_policy_thm demo_reader demo_cfg demo_scaler empty_store 0
    (level_array demo_reader demo_cfg 0) rfl rfl
    { name := 'Y', size := 2, tile := 2 } (List.Mem.head _)

/-! ## Claim C6: the resampling source of each generated pyramid level -/

theorem getLastD_base_range : ∀ (k a d : Nat),
    (a :: List.range' (a + 1) k).getLastD d = a + k := by
  intro k
  induction k with
  | zero => intro a d; rfl
  | succ k ih =>
    intro a d
    rw [List.range'_succ]
    rw [List.getLastD_cons]
    have h := ih (a + 1) a
    rw [h]
    omega

theorem scale_fold_trace (py : PyramidConfig) (dn : List Char) (ad : Nat)
    (mt : Char → Option Nat) (sa : ScaleFn) (lm : Nat) :
    ∀ (ps : List (Nat × List Nat)) (k : Nat) (ss : ScaleState),
    ss.err = none →
    ss.level = lm + 1 + k →
    ss.uris = lm :: List.range' (lm + 1) k →
    (∀ u ∈ ss.uris, (ss.store.arrays.lookup u).isSome = true) →
    (∀ j, lm + 1 + k ≤ j → j < lm + 1 + k + ps.length → ss.store.arrays.lookup j = none) →
    (ps.foldl (scale_step py dn ad mt sa) ss).err = none ∧
    (ps.foldl (scale_step py dn ad mt sa) ss).scale_trace =
      ss.scale_trace ++ (List.range ps.length).map (fun j =>
        (lm + 1 + k + j, if py.progressive then lm + k + j else lm)) ∧
    (ps.foldl (scale_step py dn ad mt sa) ss).levels_meta.map (fun d => d.level) =
      ss.levels_meta.map (fun d => d.level) ++
        (List.range ps.length).map (fun j => lm + 1 + k + j) := by
  intro ps
  induction ps with
  | nil =>
    intro k ss herr _ _ _ _
    exact ⟨herr, by simp, by simp⟩
  | cons p ps ih =>
    intro k ss herr hlev huris hmem hfresh
    have hfrk : ss.store.arrays.lookup ss.level = none := by
      rw [hlev]
      exact hfresh _ (Nat.le_refl _) (by simp)
    have hsrck : scale_src_key py ss = if py.progressive then lm + k else lm := by
      unfold scale_src_key
      rw [huris]
      cases py.progressive with
      | true =>
        rw [if_pos rfl, if_pos rfl]
        exact getLastD_base_range k lm 0
      | false =>
        rw [if_neg (by simp), if_neg (by simp)]
        rfl
    have hsrc_mem : (if py.progressive then lm + k else lm) ∈ ss.uris := by
      rw [huris]
      cases py.progressive with
      | true =>
        rw [if_pos rfl]
        cases k with
        | zero => simp
        | succ k2 =>
          exact List.mem_cons_of_mem _ (List.mem_range'.2 ⟨k2, by omega, by omega⟩)
      | false =>
        rw [if_neg (by simp)]
        exact List.mem_cons_self _ _
    have hsrc_some : (ss.store.arrays.lookup (scale_src_key py ss)).isSome = true := by
      rw [hsrck]
      exact hmem _ hsrc_mem
    rcases Option.isSome_iff_exists.1 hsrc_some with ⟨src, hsrc⟩
    have hstep : scale_step py dn ad mt sa ss p =
        { store := { ss.store with
            arrays := ss.store.arrays ++
              [(ss.level,
                { schema := _get_schema dn p.2 mt ad
                  level_meta := some ss.level, reader_meta := none
                  data := sa src.data p.1 p.2 })] }
          uris := ss.uris ++ [ss.level]
          levels_meta := ss.levels_meta ++
            [{ level := ss.level, axes := dn, shape := p.2 }]
          level := ss.level + 1
          scale_trace := ss.scale_trace ++ [(ss.level, scale_src_key py ss)]
          err := none } := by
      unfold scale_step
      rw [if_neg (by simp [herr]), hfrk, hsrc]
    have hih := ih (k + 1) (scale_step py dn ad mt sa ss p)
      (by rw [hstep])
      (by rw [hstep]
          show ss.level + 1 = lm + 1 + (k + 1)
          omega)
      (by rw [hstep]
          show ss.uris ++ [ss.level] = lm :: List.range' (lm + 1) (k + 1)
          rw [huris, hlev, List.range'_concat]
          simp)
      (by rw [hstep]
          intro u hu
          show ((ss.store.arrays ++ [(ss.level, _)]).lookup u).isSome = true
          rcases List.mem_append.1 hu with hu1 | hu1
          · rcases Option.isSome_iff_exists.1 (hmem u hu1) with ⟨b, hb⟩
            rw [lookup_append_some hb]
            rfl
          · simp only [List.mem_singleton] at hu1
            subst hu1
            rw [lookup_insert_self hfrk]
            rfl)
      (by rw [hstep]
          intro j hj1 hj2
          show (ss.store.arrays ++ [(ss.level, _)]).lookup j = none
          rw [lookup_insert_ne (by rw [hlev]; omega)]
          refine hfresh j (by omega) ?_
          simp at hj2 ⊢
          omega)
    refine ⟨hih.1, ?_, ?_⟩
    · show (ps.foldl (scale_step py dn ad mt sa)
        (scale_step py dn ad mt sa ss p)).scale_trace = _
      rw [hih.2.1, hstep]
      show (ss.scale_trace ++ [(ss.level, scale_src_key py ss)]) ++ _ = _
      rw [hsrck, hlev, List.append_assoc]
      congr 1
      show ((lm + 1 + k, if py.progressive then lm + k else lm) ::
          (List.range ps.length).map (fun j =>
            (lm + 1 + (k + 1) + j, if py.progressive then lm + (k + 1) + j else lm))) = _
      rw [List.length_cons, List.range_succ_eq_map, List.map_cons, List.map_map]
      congr 1
      apply map_pointwise
      intro j
      show (lm + 1 + (k + 1) + j, if py.progressive then lm + (k + 1) + j else lm)
        = (lm + 1 + k + (j + 1), if py.progressive then lm + k + (j + 1) else lm)
      cases py.progressive with
      | true =>
        rw [if_pos rfl, if_pos rfl]
        congr 1 <;> omega
      | false =>
        rw [if_neg (by simp), if_neg (by simp)]
        congr 1
        omega
    · show (ps.foldl (scale_step py dn ad mt sa)
        (scale_step py dn ad mt sa ss p)).levels_meta.map (fun d => d.level) = _
      rw [hih.2.2, hstep]
      show ((ss.levels_meta ++ [({ level := ss.level, axes := dn, shape := p.2 } : LevelDesc)]).map
        (fun d => d.level)) ++ _ = _
      rw [List.map_append, hlev, List.append_assoc]
      congr 1
      rw [List.length_cons, List.range_succ_eq_map]
      simp only [List.map_cons, List.map_map, List.map_nil, List.nil_append]
      show (lm + 1 + k) :: _ = (lm + 1 + k + 0) :: _
      congr 1
      apply map_pointwise
      intro j
      show lm + 1 + (k + 1) + j = lm + 1 + k + (j + 1)
      omega

theorem run_scale_cons (py : PyramidConfig) (dn : List Char) (ad : Nat)
    (mt : Char → Option Nat) (sa : ScaleFn) (lm : Nat) (store : Store)
    (u0 : Nat) (rest : List Nat) (lmeta : List LevelDesc) :
    run_scale py dn ad mt sa lm store (u0 :: rest) lmeta =
      match store.arrays.lookup u0 with
      | none =>
        { store := store, uris := u0 :: rest, levels_meta := lmeta
          level := lm + 1, scale_trace := [], err := some .missing_array }
      | some base =>
        (scaler_level_shapes py dn (base.schema.dims.map (fun d => d.size))).enum.foldl
          (scale_step py dn ad mt sa)
          { store := store, uris := u0 :: rest, levels_meta := lmeta
            level := lm + 1, scale_trace := [], err := none } := rfl

/-- C6: during pyramid generation, each generated level at `level_min + 1 + j`
is resampled from the array recorded in the source trace: the immediately
preceding generated level (`level_min + j`, the base for `j = 0`) when the
scaler is progressive, and always the fixed base array at `level_min` when it
is not. -/
theorem scale_source_thm (py : PyramidConfig) (dn : List Char) (ad : Nat)
    (mt : Char → Option Nat) (sa : ScaleFn) (lm : Nat) (store : Store)
    (lmeta : List LevelDesc) {base_arr : StoredArray}
    (hbase : store.arrays.lookup lm = some base_arr)
    (hfresh : ∀ j, lm + 1 ≤ j → j < lm + 1 + py.scale_factors.length →
      store.arrays.lookup j = none) :
    (run_scale py dn ad mt sa lm store [lm] lmeta).scale_trace =
      (List.range py.scale_factors.length).map (fun j =>
        (lm + 1 + j, if py.progressive then lm + j else lm)) := by
  rw [run_scale_cons, hbase]
  have hlen : (scaler_level_shapes py dn
      (base_arr.schema.dims.map (fun d => d.size))).enum.length
      = py.scale_factors.length := by
    rw [List.enum_length]
    unfold scaler_level_shapes
    rw [List.length_map]
  have h := scale_fold_trace py dn ad mt sa lm
    (scaler_level_shapes py dn (base_arr.schema.dims.map (fun d => d.size))).enum 0
    { store := store, uris := [lm], levels_meta := lmeta
      level := lm + 1, scale_trace := [], err := none }
    rfl rfl (by simp)
    (by intro u hu
        simp only [List.mem_singleton] at hu
        subst hu
        show (store.arrays.lookup u).isSome = true
        rw [hbase]
        rfl)
    (by intro j hj1 hj2
        refine hfresh j (by omega) ?_
        rw [hlen] at hj2
        omega)
  rw [h.2.1, hlen]
  simp

/-- Witness for C6: two progressive factors over a store holding the base. -/
theorem scale_source_witness :
    (run_scale { scale_factors := [2, 2], progressive := true } ['Y'] 0
      (mk_max_tiles demo_cfg.tiles 1) demo_scaler 0 store_with_l0 [0] []).scale_trace =
      (List.range 2).map (fun j => (0 + 1 + j,
        if ({ scale_factors := [2, 2], progressive := true } : PyramidConfig).progressive
        then 0 + j else 0)) :=
  scale_source_thm { scale_factors := [2, 2], progressive := true } ['Y'] 0
    (mk_max_tiles demo_cfg.tiles 1) demo_scaler 0 store_with_l0 [] rfl
    (by intro j h1 h2
        cases j with
        | zero => omega
        | succ n => rfl)


/-! ## Claim C4: the final `levels` metadata entry -/

theorem foldl_convert_mixed (reader : ImageReader) {cfg : ConvConfig}
    (hpd : cfg.pixel_depth = 1) (A0 : List (Nat × StoredArray)) :
    ∀ {levels : List Nat} {st : NativeState}, st.err = none →
    (∀ l ∈ levels, st.store.arrays.lookup l = A0.lookup l) → levels.Nodup →
    (levels.foldl (convert_level reader cfg) st).err = none ∧
    (levels.foldl (convert_level reader cfg) st).uris
      = st.uris ++ levels.filter (fun l => (A0.lookup l).isNone) ∧
    (levels.foldl (convert_level reader cfg) st).levels_meta
      = st.levels_meta ++
        (levels.filter (fun l => (A0.lookup l).isNone)).map (level_desc reader cfg) ∧
    (∀ k, k ∉ levels →
      (levels.foldl (convert_level reader cfg) st).store.arrays.lookup k
        = st.store.arrays.lookup k) ∧
    (levels.filter (fun l => (A0.lookup l).isNone) ≠ [] →
      (levels.foldl (convert_level reader cfg) st).dim_names
          = some (target_axes reader cfg) ∧
      (levels.foldl (convert_level reader cfg) st).attr_dtype.isSome = true) ∧
    (levels.filter (fun l => (A0.lookup l).isNone) = [] →
      (levels.foldl (convert_level reader cfg) st).dim_names = st.dim_names ∧
      (levels.foldl (convert_level reader cfg) st).attr_dtype = st.attr_dtype) := by
  intro levels
  induction levels with
  | nil =>
    intro st herr _ _
    exact ⟨herr, by simp, by simp, fun k _ => rfl, fun h => absurd rfl h, fun _ => ⟨rfl, rfl⟩⟩
  | cons x xs ih =>
    intro st herr hl hnd
    have hlx : st.store.arrays.lookup x = A0.lookup x := hl x (by simp)
    cases hA : A0.lookup x with
    | some a =>
      have hcv : convert_level reader cfg st x = st := by
        unfold convert_level
        rw [if_neg (by simp [herr]), hlx, hA]
      have hfilter : (x :: xs).filter (fun l => (A0.lookup l).isNone)
          = xs.filter (fun l => (A0.lookup l).isNone) := by
        rw [List.filter_cons]
        rw [if_neg (by simp [hA])]
      obtain ⟨ih1, ih2, ih3, ih4, ih5, ih6⟩ :=
        ih herr (fun l hlm => hl l (List.mem_cons_of_mem _ hlm))
          (List.nodup_cons.1 hnd).2
      have hfold : (x :: xs).foldl (convert_level reader cfg) st
          = xs.foldl (convert_level reader cfg) st := by
        show xs.foldl (convert_level reader cfg) (convert_level reader cfg st x) = _
        rw [hcv]
      rw [hfold, hfilter]
      exact ⟨ih1, ih2, ih3,
        fun k hk => ih4 k (fun hm => hk (List.mem_cons_of_mem _ hm)), ih5, ih6⟩
    | none =>
      have hlx2 : st.store.arrays.lookup x = none := by rw [hlx, hA]
      have hcv : convert_level reader cfg st x =
          { store := { st.store with
              arrays := st.store.arrays ++ [(x, level_array reader cfg x)] }
            uris := st.uris ++ [x]
            levels_meta := st.levels_meta ++ [level_desc reader cfg x]
            dim_names := some (target_axes reader cfg)
            attr_dtype := some (reader.level_dtype x)
            err := none } := by
        unfold convert_level
        rw [if_neg (by simp [herr]), hlx2, if_pos hpd]
      have hfilter : (x :: xs).filter (fun l => (A0.lookup l).isNone)
          = x :: xs.filter (fun l => (A0.lookup l).isNone) := by
        rw [List.filter_cons]
        rw [if_pos (by simp [hA])]
      have herr1 : (convert_level reader cfg st x).err = none := by rw [hcv]
      have hl1 : ∀ l ∈ xs, (convert_level reader cfg st x).store.arrays.lookup l
          = A0.lookup l := by
        intro l hlm
        rw [hcv]
        show (st.store.arrays ++ [(x, level_array reader cfg x)]).lookup l = _
        rw [lookup_insert_ne (by rintro rfl; exact (List.nodup_cons.1 hnd).1 hlm)]
        exact hl l (List.mem_cons_of_mem _ hlm)
      obtain ⟨ih1, ih2, ih3, ih4, ih5, ih6⟩ := ih herr1 hl1 (List.nodup_cons.1 hnd).2
      rw [hfilter]
      refine ⟨ih1, ?_, ?_, ?_, ?_, fun hemp => nomatch hemp⟩
      · show (xs.foldl (convert_level reader cfg) (convert_level reader cfg st x)).uris = _
        rw [ih2, hcv]
        simp
      · show (xs.foldl (convert_level reader cfg)
          (convert_level reader cfg st x)).levels_meta = _
        rw [ih3, hcv]
        simp
      · intro k hk
        show (xs.foldl (convert_level reader cfg)
          (convert_level reader cfg st x)).store.arrays.lookup k = _
        rw [ih4 k (fun hm => hk (List.mem_cons_of_mem _ hm)), hcv]
        show (st.store.arrays ++ [(x, level_array reader cfg x)]).lookup k = _
        exact lookup_insert_ne (by rintro rfl; exact hk (by simp)) _
      · intro _
        cases hxe : xs.filter (fun l => (A0.lookup l).isNone) with
        | nil =>
          have h6 := ih6 hxe
          constructor
          · show (xs.foldl (convert_level reader cfg)
              (convert_level reader cfg st x)).dim_names = some (target_axes reader cfg)
            rw [h6.1, hcv]
          · show ((xs.foldl (convert_level reader cfg)
              (convert_level reader cfg st x)).attr_dtype).isSome = true
            rw [h6.2, hcv]
            rfl
        | cons y ys =>
          exact ih5 (by rw [hxe]; simp)

theorem map_desc_level (reader : ImageReader) (cfg : ConvConfig) (ls : List Nat) :
    (ls.map (level_desc reader cfg)).map (fun d => d.level) = ls := by
  rw [List.map_map]
  exact (map_pointwise (fun l => rfl)).trans (List.map_id ls)

theorem scale_outcome_eq_ok {reader : ImageReader} {w : Bool} {ss : ScaleState}
    (h : ss.err = none) :
    scale_outcome reader w ss
      = finalize_group reader ss.store ss.uris ss.levels_meta w ss.scale_trace := by
  unfold scale_outcome
  rw [h]

theorem native_levels_pyramid {reader : ImageReader} {cfg : ConvConfig}
    {py : PyramidConfig} (h : cfg.pyramid = some py) :
    native_levels reader cfg = [cfg.level_min] := by
  unfold native_levels native_level_max
  rw [h]
  simp

/-- C4 (amended): after a successful `to_tiledb` run the whole-image group
metadata is written once at the end, and its `levels` entry is the ordered
sequence (by level number) of descriptors of exactly the levels materialized
by this run — the requested native levels whose arrays did not already exist,
followed by the pyramid-generated levels. Levels whose arrays pre-existed
(completed by an earlier run) are skipped and receive no descriptor. -/
theorem levels_meta_amended (reader : ImageReader) (cfg : ConvConfig) (sa : ScaleFn)
    (store0 : Store) (hpd : cfg.pixel_depth = 1)
    (hpy_base : ∀ py, cfg.pyramid = some py →
      store0.arrays.lookup cfg.level_min = none)
    (hpy_gen : ∀ py j, cfg.pyramid = some py → cfg.level_min + 1 ≤ j →
      j < cfg.level_min + 1 + py.scale_factors.length →
      store0.arrays.lookup j = none) :
    (to_tiledb reader cfg sa store0).err = none ∧
    ((to_tiledb reader cfg sa store0).store.group_meta).map
        (fun g => g.levels.map (fun d => d.level)) =
      some ((native_levels reader cfg).filter
          (fun l => (store0.arrays.lookup l).isNone) ++
        (match cfg.pyramid with
         | none => []
         | some py => List.range' (cfg.level_min + 1) py.scale_factors.length)) := by
  have hA0 : ∀ l ∈ native_levels reader cfg,
      (init_native_state (ensure_group store0)).store.arrays.lookup l
        = store0.arrays.lookup l := by
    intro l _
    show (ensure_group store0).arrays.lookup l = store0.arrays.lookup l
    rw [ensure_group_arrays]
  have hnd : (native_levels reader cfg).Nodup := List.nodup_range' _ _ 1 one_pos
  obtain ⟨hns1, hns2, hns3, hns4, hns5, hns6⟩ :=
    foldl_convert_mixed reader hpd store0.arrays rfl hA0 hnd
  have hgoal : (to_tiledb reader cfg sa store0) = pyramid_phase reader cfg sa
      ((native_levels reader cfg).foldl (convert_level reader cfg)
        (init_native_state (ensure_group store0))) (pyramid_warned reader cfg) := rfl
  rw [hgoal]
  set NS := (native_levels reader cfg).foldl (convert_level reader cfg)
    (init_native_state (ensure_group store0)) with hNS
  cases hpy : cfg.pyramid with
  | none =>
    have heq : pyramid_phase reader cfg sa NS (pyramid_warned reader cfg)
        = finalize_group reader NS.store NS.uris NS.levels_meta
            (pyramid_warned reader cfg) [] :=
      pyramid_phase_eq_plain hns1 hpy
    rw [heq]
    refine ⟨rfl, ?_⟩
    show (some { axes := reader.axes, reader_meta := reader.group_metadata
                 levels := NS.levels_meta } : Option GroupMeta).map
        (fun g => g.levels.map (fun d => d.level)) = _
    rw [Option.map_some', hns3]
    show some ((((init_native_state (ensure_group store0)).levels_meta
        ++ ((native_levels reader cfg).filter
          (fun l => (store0.arrays.lookup l).isNone)).map (level_desc reader cfg))).map
          (fun d => d.level)) = _
    show some (((([] : List LevelDesc) ++ ((native_levels reader cfg).filter
        (fun l => (store0.arrays.lookup l).isNone)).map (level_desc reader cfg))).map
          (fun d => d.level)) = _
    rw [List.nil_append, map_desc_level]
    simp
  | some py =>
    have hnl : native_levels reader cfg = [cfg.level_min] := native_levels_pyramid hpy
    have hfilt : (native_levels reader cfg).filter
        (fun l => (store0.arrays.lookup l).isNone) = [cfg.level_min] := by
      rw [hnl]
      simp [List.filter_cons, hpy_base py hpy]
    obtain ⟨hdn, hads⟩ := hns5 (by rw [hfilt]; simp)
    obtain ⟨ad, had⟩ := Option.isSome_iff_exists.1 hads
    have huris : NS.uris = [cfg.level_min] := by
      rw [hns2, hfilt]
      rfl
    have hmeta0 : NS.levels_meta = [level_desc reader cfg cfg.level_min] := by
      rw [hns3, hfilt]
      rfl
    have hbne := foldl_convert_present hns1 cfg.level_min (by rw [hnl]; simp)
    cases hbase : NS.store.arrays.lookup cfg.level_min with
    | none => exact absurd hbase hbne
    | some base =>
      have heq : pyramid_phase reader cfg sa NS (pyramid_warned reader cfg)
          = scale_outcome reader (pyramid_warned reader cfg)
              (run_scale py (target_axes reader cfg) ad
                (mk_max_tiles cfg.tiles cfg.pixel_depth) sa cfg.level_min
                NS.store NS.uris NS.levels_meta) :=
        pyramid_phase_eq_scale hns1 hpy hdn had
      have hlen : (scaler_level_shapes py (target_axes reader cfg)
          (base.schema.dims.map (fun d => d.size))).enum.length
          = py.scale_factors.length := by
        rw [List.enum_length]
        unfold scaler_level_shapes
        rw [List.length_map]
      have hsf := scale_fold_trace py (target_axes reader cfg) ad
        (mk_max_tiles cfg.tiles cfg.pixel_depth) sa cfg.level_min
        (scaler_level_shapes py (target_axes reader cfg)
          (base.schema.dims.map (fun d => d.size))).enum 0
        { store := NS.store
          uris := [cfg.level_min]
          levels_meta := [level_desc reader cfg cfg.level_min]
          level := cfg.level_min + 1, scale_trace := [], err := none }
        rfl rfl (by simp)
        (by intro u hu
            simp only [List.mem_singleton] at hu
            subst hu
            show (NS.store.arrays.lookup cfg.level_min).isSome = true
            rw [hbase]
            rfl)
        (by intro j hj1 hj2
            rw [hlen] at hj2
            show NS.store.arrays.lookup j = none
            rw [hns4 j (by rw [hnl]; simp; omega)]
            show (ensure_group store0).arrays.lookup j = none
            rw [ensure_group_arrays]
            exact hpy_gen py j hpy (by omega) (by omega))
      have hrs : run_scale py (target_axes reader cfg) ad
          (mk_max_tiles cfg.tiles cfg.pixel_depth) sa cfg.level_min
          NS.store [cfg.level_min] [level_desc reader cfg cfg.level_min]
          = (scaler_level_shapes py (target_axes reader cfg)
              (base.schema.dims.map (fun d => d.size))).enum.foldl
            (scale_step py (target_axes reader cfg) ad
              (mk_max_tiles cfg.tiles cfg.pixel_depth) sa)
            { store := NS.store
              uris := [cfg.level_min]
              levels_meta := [level_desc reader cfg cfg.level_min]
              level := cfg.level_min + 1, scale_trace := [], err := none } := by
        rw [run_scale_cons, hbase]
      rw [heq, huris, hmeta0, hrs, scale_outcome_eq_ok hsf.1]
      refine ⟨rfl, ?_⟩
      show (some { axes := reader.axes, reader_meta := reader.group_metadata
                   levels := ((scaler_level_shapes py (target_axes reader cfg)
                       (base.schema.dims.map (fun d => d.size))).enum.foldl
                     (scale_step py (target_axes reader cfg) ad
                       (mk_max_tiles cfg.tiles cfg.pixel_depth) sa)
                     { store := NS.store
                       uris := [cfg.level_min]
                       levels_meta := [level_desc reader cfg cfg.level_min]
                       level := cfg.level_min + 1, scale_trace := [],
                       err := none }).levels_meta }
          : Option GroupMeta).map (fun g => g.levels.map (fun d => d.level)) = _
      rw [Option.map_some']
      have hm := hsf.2.2
      rw [hm, hlen, hfilt]
      show some (([level_desc reader cfg cfg.level_min].map (fun d => d.level)) ++
          (List.range py.scale_factors.length).map (fun j => cfg.level_min + 1 + 0 + j))
        = some ([cfg.level_min] ++
          List.range' (cfg.level_min + 1) py.scale_factors.length)
      have htail : (List.range py.scale_factors.length).map
          (fun j => cfg.level_min + 1 + 0 + j)
          = List.range' (cfg.level_min + 1) py.scale_factors.length := by
        rw [List.range'_eq_map_range]
      rw [htail]
      rfl


/-- C4 (counterexample to the claim as stated): on a resumed run whose store
already holds a converted level-0 array, `to_tiledb` succeeds and writes group
metadata whose `levels` list holds only the newly converted level 1 and omits
the completed (pre-existing) level 0, so the final metadata does not contain
one descriptor for every completed level of the image. -/
theorem levels_meta_resume_cex :
    (to_tiledb demo_reader demo_cfg demo_scaler store_with_l0).err = none ∧
    ((to_tiledb demo_reader demo_cfg demo_scaler
        store_with_l0).store.arrays.lookup 0).isSome = true ∧
    ((to_tiledb demo_reader demo_cfg demo_scaler
        store_with_l0).store.group_meta).map
      (fun g => g.levels.map (fun d => d.level)) = some [1] ∧
    ¬ (0 : Nat) ∈ [1] :=
  ⟨rfl, rfl, rfl, by decide⟩

/-- Closed instance of the amended C4 statement: a fresh pyramid run over an
empty store records exactly the freshly converted native level 0 followed by
the generated pyramid level 1. -/
theorem levels_meta_amended_witness :
    (to_tiledb demo_reader
      { demo_cfg with pyramid := some { scale_factors := [2] } }
      demo_scaler empty_store).err = none ∧
    ((to_tiledb demo_reader
      { demo_cfg with pyramid := some { scale_factors := [2] } }
      demo_scaler empty_store).store.group_meta).map
        (fun g => g.levels.map (fun d => d.level)) = some [0, 1] :=
  levels_meta_amended demo_reader
    { demo_cfg with pyramid := some { scale_factors := [2] } }
    demo_scaler empty_store rfl (fun _ _ => rfl) (fun _ _ _ _ _ => rfl)

/-! ## Claim C7: chunked and whole-image writes agree at the run level -/

theorem target_axes_mem (reader : ImageReader) (cfg : ConvConfig) (c : Char)
    (h : c ∈ target_axes reader cfg) : c ∈ reader.axes := by
  unfold target_axes at h
  cases hp : cfg.preserve_axes with
  | true =>
    rw [hp, if_pos rfl] at h
    exact h
  | false =>
    rw [hp] at h
    rw [if_neg (by simp)] at h
    unfold canonical_axes at h
    exact of_decide_eq_true (List.mem_filter.1 h).2

theorem level_schema_dims (reader : ImageReader) (cfg : ConvConfig) (level : Nat) :
    (level_schema reader cfg level).dims
      = (target_axes reader cfg).map (fun c =>
          ({ name := c
             size := (reader.level_shape level).getD (reader.axes.indexOf c) 0
             tile := min_tile ((reader.level_shape level).getD (reader.axes.indexOf c) 0)
               (mk_max_tiles cfg.tiles cfg.pixel_depth c) } : SchemaDim)) := by
  have hshape : level_dim_shape reader cfg level
      = (target_axes reader cfg).map
          (fun c => (reader.level_shape level).getD (reader.axes.indexOf c) 0) := by
    show map_index ((target_axes reader cfg).map (fun c => reader.axes.indexOf c))
        (reader.level_shape level) 0 = _
    unfold map_index
    rw [List.map_map]
    rfl
  show ((target_axes reader cfg).zip (level_dim_shape reader cfg level)).map
      (fun p => ({ name := p.1, size := p.2
                   tile := min_tile p.2 (mk_max_tiles cfg.tiles cfg.pixel_depth p.1) }
        : SchemaDim)) = _
  rw [hshape]
  have hz := List.zip_map' id
    (fun c => (reader.level_shape level).getD (reader.axes.indexOf c) 0)
    (target_axes reader cfg)
  rw [List.map_id] at hz
  rw [hz, List.map_map]
  rfl

theorem mk_max_tiles_pos (tiles : Char → Option Nat)
    (htl : ∀ c t, tiles c = some t → 0 < t) (c : Char) (b : Nat)
    (h : mk_max_tiles tiles 1 c = some b) : 0 < b := by
  unfold mk_max_tiles with_defaults default_tiles at h
  cases hts : tiles c with
  | some t =>
    rw [hts] at h
    have htp := htl c t hts
    by_cases hx : c = 'X'
    · rw [if_pos hx] at h
      simp only [Option.map_some', Option.some.injEq] at h
      omega
    · rw [if_neg hx] at h
      cases h
      exact htp
  | none =>
    rw [hts] at h
    by_cases hx : c = 'X'
    · subst hx
      rw [if_pos rfl] at h
      simp at h
      omega
    · rw [if_neg hx] at h
      by_cases hcC : c = 'C'
      · rw [if_pos hcC] at h
        cases h
      · rw [if_neg hcC] at h
        by_cases hyx : c = 'Y' ∨ c = 'X'
        · rw [if_pos hyx] at h
          cases h
          omega
        · rw [if_neg hyx] at h
          cases h
          omega

theorem schema_tile_pos (reader : ImageReader) (cfg : ConvConfig) (level : Nat)
    (hlen : (reader.level_shape level).length = reader.axes.length)
    (hpos : ∀ x ∈ reader.level_shape level, 0 < x)
    (htl : ∀ c t, cfg.tiles c = some t → 0 < t)
    (hpd : cfg.pixel_depth = 1) :
    ∀ d ∈ (level_schema reader cfg level).dims, 0 < d.tile := by
  intro d hd
  rw [level_schema_dims, List.mem_map] at hd
  obtain ⟨c, hcm, rfl⟩ := hd
  have hmem : c ∈ reader.axes := target_axes_mem reader cfg c hcm
  have hidx : reader.axes.indexOf c < (reader.level_shape level).length := by
    rw [hlen]
    exact List.indexOf_lt_length.2 hmem
  have hsz : 0 < (reader.level_shape level).getD (reader.axes.indexOf c) 0 := by
    rw [List.getD_eq_getElem _ _ hidx]
    exact hpos _ (List.getElem_mem hidx)
  show 0 < min_tile ((reader.level_shape level).getD (reader.axes.indexOf c) 0)
      (mk_max_tiles cfg.tiles cfg.pixel_depth c)
  rw [hpd]
  cases hb : mk_max_tiles cfg.tiles 1 c with
  | none => simpa [min_tile] using hsz
  | some b =>
    have hbpos : 0 < b := mk_max_tiles_pos cfg.tiles htl c b hb
    simp only [min_tile]
    exact Nat.lt_min.2 ⟨hsz, hbpos⟩

theorem level_array_chunk_eq (reader : ImageReader) (cfg : ConvConfig) (level : Nat)
    (hlen : (reader.level_shape level).length = reader.axes.length)
    (hpos : ∀ x ∈ reader.level_shape level, 0 < x)
    (htl : ∀ c t, cfg.tiles c = some t → 0 < t)
    (hpd : cfg.pixel_depth = 1)
    (hc : ∀ t rel, reader.level_image level (some t) rel
        = reader.level_image level none (add_offsets t rel)) :
    level_array reader { cfg with chunked := true, max_workers := 0 } level
      = level_array reader { cfg with chunked := false, max_workers := 0 } level := by
  have ht : ∀ d ∈ (level_schema reader cfg level).dims, 0 < d.tile :=
    schema_tile_pos reader cfg level hlen hpos htl hpd
  have hdata := chunked_eq_whole_level_data reader level (mapper_for reader cfg)
    (level_schema reader cfg level) hc ht
  have h1 : level_array reader { cfg with chunked := true, max_workers := 0 } level
      = { schema := level_schema reader cfg level
          level_meta := some level
          reader_meta := some (reader.level_metadata level)
          data := chunked_level_data reader level (mapper_for reader cfg)
            (level_schema reader cfg level) } := rfl
  have h2 : level_array reader { cfg with chunked := false, max_workers := 0 } level
      = { schema := level_schema reader cfg level
          level_meta := some level
          reader_meta := some (reader.level_metadata level)
          data := whole_level_data reader level (mapper_for reader cfg)
            (level_schema reader cfg level) } := rfl
  rw [h1, h2, hdata]

theorem convert_level_chunk_eq (reader : ImageReader) (cfg : ConvConfig)
    (st : NativeState) (level : Nat)
    (hlen : (reader.level_shape level).length = reader.axes.length)
    (hpos : ∀ x ∈ reader.level_shape level, 0 < x)
    (htl : ∀ c t, cfg.tiles c = some t → 0 < t)
    (hpd : cfg.pixel_depth = 1)
    (hc : ∀ t rel, reader.level_image level (some t) rel
        = reader.level_image level none (add_offsets t rel)) :
    convert_level reader { cfg with chunked := true, max_workers := 0 } st level
      = convert_level reader { cfg with chunked := false, max_workers := 0 } st level := by
  have hla := level_array_chunk_eq reader cfg level hlen hpos htl hpd hc
  unfold convert_level
  rw [hla]
  rfl

/-- C7: for every image reader whose level shapes are positive and match its
axes, every configuration with positive requested tiles and unit pixel depth,
and a reader whose tiled reads are the restrictions of its full reads,
`to_tiledb` with `chunked=True` and `to_tiledb` with `chunked=False` (both
without worker threads) produce identical run outcomes — in particular
bit-identical destination arrays for every converted level. -/
theorem chunked_whole_equiv_thm (reader : ImageReader) (cfg : ConvConfig)
    (sa : ScaleFn) (store : Store)
    (hlen : ∀ level, (reader.level_shape level).length = reader.axes.length)
    (hpos : ∀ level, ∀ x ∈ reader.level_shape level, 0 < x)
    (htl : ∀ c t, cfg.tiles c = some t → 0 < t)
    (hpd : cfg.pixel_depth = 1)
    (hc : ∀ level t rel, reader.level_image level (some t) rel
        = reader.level_image level none (add_offsets t rel)) :
    to_tiledb reader { cfg with chunked := true, max_workers := 0 } sa store
      = to_tiledb reader { cfg with chunked := false, max_workers := 0 } sa store := by
  have hcv : convert_level reader { cfg with chunked := true, max_workers := 0 }
      = convert_level reader { cfg with chunked := false, max_workers := 0 } := by
    funext st level
    exact convert_level_chunk_eq reader cfg st level (hlen level) (hpos level)
      htl hpd (hc level)
  show pyramid_phase reader { cfg with chunked := true, max_workers := 0 } sa
      ((native_levels reader { cfg with chunked := true, max_workers := 0 }).foldl
        (convert_level reader { cfg with chunked := true, max_workers := 0 })
        (init_native_state (ensure_group store)))
      (pyramid_warned reader { cfg with chunked := true, max_workers := 0 })
    = to_tiledb reader { cfg with chunked := false, max_workers := 0 } sa store
  rw [hcv]
  rfl

/-- Closed instance of C7 at the demo fixtures: the chunked and whole-image
runs coincide outright. -/
theorem chunked_whole_equiv_witness :
    to_tiledb demo_reader { demo_cfg with chunked := true, max_workers := 0 }
        demo_scaler empty_store
      = to_tiledb demo_reader { demo_cfg with chunked := false, max_workers := 0 }
        demo_scaler empty_store :=
  chunked_whole_equiv_thm demo_reader demo_cfg demo_scaler empty_store
    (by intro level
        by_cases h : level = 0 <;> simp [demo_reader, h])
    (by intro level x hx
        by_cases h : level = 0 <;> simp [demo_reader, h] at hx <;> omega)
    (fun c t h => nomatch h)
    rfl
    (fun level t rel => rfl)

/-! ## Claim C9: export order -/

theorem export_fold_eq (g : GroupMeta) (level_min : Nat) :
    ∀ (l : List (Nat × StoredArray)) (acc : List WEvent),
    l.foldl (fun evs p =>
        if p.1 < level_min then evs
        else evs ++ [WEvent.level_image p.1 (read_level_model g p.2)
          (read_level_shape g p.2) p.2.reader_meta]) acc
      = acc ++ (l.filter (fun p => level_min ≤ p.1)).map
          (fun p => WEvent.level_image p.1 (read_level_model g p.2)
            (read_level_shape g p.2) p.2.reader_meta) := by
  intro l
  induction l with
  | nil =>
    intro acc
    simp
  | cons x xs ih =>
    intro acc
    simp only [List.foldl_cons]
    by_cases hx : x.1 < level_min
    · rw [if_pos hx, ih]
      rw [List.filter_cons_of_neg (by simp; omega)]
    · rw [if_neg hx, ih]
      rw [List.filter_cons_of_pos (by simp; omega)]
      simp

/-- C9: for every stored multi-level group (a group store whose metadata and
member arrays all resolve), `from_tiledb` hands the writer first the group
metadata, then one full level image per stored level of number at least
`level_min`, in ascending level order (the sort of `from_group_uri`),
each translated back to the original source axis order and paired with that
level's stored metadata. -/
theorem export_order_thm (store : Store) (level_min : Nat) (g : GroupMeta)
    (arrs : List (Nat × StoredArray))
    (hg : store.group_meta = some g)
    (hm : member_arrays store = some arrs) :
    from_tiledb store level_min
      = some (WEvent.group_meta g ::
          ((List.insertionSort level_le arrs).filter
              (fun p => level_min ≤ p.1)).map
            (fun p => WEvent.level_image p.1 (read_level_model g p.2)
              (read_level_shape g p.2) p.2.reader_meta))
      ∧ (List.insertionSort level_le arrs).Sorted level_le := by
  constructor
  · simp only [from_tiledb, hg, slide_level_arrays, hm, Option.map_some']
    rw [export_fold_eq g level_min]
    rw [List.nil_append]
  · exact List.sorted_insertionSort level_le arrs

/-- Group metadata of the export fixture. -/
def export_gm : GroupMeta :=
  { axes := ['Y'], reader_meta := 42, levels := [] }

/-- A one-level group store to read back. -/
def export_store : Store :=
  { is_group := true
    arrays := [(0, dummy_array)]
    group_meta := some export_gm
    members := [0] }

/-- Closed instance of C9 over the one-level export fixture. -/
theorem export_order_witness :
    from_tiledb export_store 0
      = some (WEvent.group_meta export_gm ::
          ((List.insertionSort level_le [(0, dummy_array)]).filter
              (fun p => (0 : Nat) ≤ p.1)).map
            (fun p => WEvent.level_image p.1 (read_level_model export_gm p.2)
              (read_level_shape export_gm p.2) p.2.reader_meta))
      ∧ (List.insertionSort level_le [(0, dummy_array)]).Sorted level_le :=
  export_order_thm export_store 0 export_gm [(0, dummy_array)] rfl rfl

end BioImg
